import Mathlib

/-!
Verification of specification claims for the cadis-runtime repository
against a shallow embedding of its Python source.

Modelling conventions used throughout:
* Python `int` is `Int` (or `Nat` where the source value is a count);
* Python `float` is modelled by exact rationals `ℚ` (idealised IEEE
  arithmetic; each place where rounding could in principle matter is
  annotated at the definition);
* Python `dict` is an association list that records insertion order,
  with unique keys wherever the source guarantees them;
* Python `str` is `String`; character-level operations (strip, split,
  startswith, lexicographic comparison) are defined structurally over
  `String.data` so that they compute inside the kernel;
* functions that raise are embedded with `Except String`.
-/

namespace Cadis

/-- First-match association lookup for Int-keyed dicts. -/
def lookupZ {β : Type} (m : List (Int × β)) (k : Int) : Option β :=
  match m with
  | [] => none
  | (k0, v) :: rest => if k0 = k then some v else lookupZ rest k

/-- First-match association lookup for String-keyed dicts. -/
def lookupS {β : Type} (m : List (String × β)) (k : String) : Option β :=
  match m with
  | [] => none
  | (k0, v) :: rest => if k0 = k then some v else lookupS rest k

/-- Dict-style insert: replace the value at an existing key in place,
otherwise append at the end (Python dict assignment semantics). -/
def setS {β : Type} (m : List (String × β)) (k : String) (v : β) : List (String × β) :=
  match m with
  | [] => [(k, v)]
  | (k0, v0) :: rest => if k0 = k then (k0, v) :: rest else (k0, v0) :: setS rest k v

/-- Insert `x` after every element `y` with `le y x`; the building block of
a stable insertion sort (the extensional model of Python sorted). -/
def insertLe {α : Type} (le : α → α → Bool) (x : α) : List α → List α
  | [] => [x]
  | y :: ys => if le y x then y :: insertLe le x ys else x :: y :: ys

/-- Stable sort by the boolean comparator `le`, processing left to right;
for a total preorder this computes exactly Python's stable sorted. -/
def sortLe {α : Type} (le : α → α → Bool) (l : List α) : List α :=
  l.foldl (fun acc y => insertLe le y acc) []

/-- Ascending sort of integers (model of Python sorted on int keys). -/
def sortInts (l : List Int) : List Int :=
  sortLe (fun a b => decide (a ≤ b)) l

/-- Keep the first occurrence of each element (model of iterating a
Python set built from a list, then sorting: only membership matters). -/
def dedupInts (l : List Int) : List Int :=
  l.foldl (fun acc x => if x ∈ acc then acc else acc ++ [x]) []

/-- Model of Python tuple(sorted(set(l))) for a list of ints. -/
def sortedDedupInts (l : List Int) : List Int :=
  sortInts (dedupInts l)

/-- Lexicographic strict order on codepoint lists; the model of Python
string comparison. -/
def charListLt : List Char → List Char → Bool
  | [], [] => false
  | [], _ :: _ => true
  | _ :: _, [] => false
  | x :: xs, y :: ys =>
    if x.toNat < y.toNat then true
    else if y.toNat < x.toNat then false
    else charListLt xs ys

/-- Python string less-or-equal via the strict order. -/
def strLeB (a b : String) : Bool := ! charListLt b.data a.data

/-- Lexicographic strict order on Nat lists; the model of Python tuple
comparison for tuples of non-negative ints (a strict non-empty prefix
is smaller). -/
def natListLt : List Nat → List Nat → Bool
  | [], [] => false
  | [], _ :: _ => true
  | _ :: _, [] => false
  | x :: xs, y :: ys =>
    if x < y then true
    else if y < x then false
    else natListLt xs ys

/-- The whitespace set stripped by Python str.strip(). -/
def pyIsSpace (c : Char) : Bool :=
  c = ' ' || c = '\t' || c = '\n' || c = '\r' || c = '\x0b' || c = '\x0c'

/-- Model of Python str.strip() at the character-list level. -/
def pyStripChars (s : List Char) : List Char :=
  ((s.dropWhile pyIsSpace).reverse.dropWhile pyIsSpace).reverse

/-- Model of Python str.strip() returning a String. -/
def pyStrip (s : String) : String := String.mk (pyStripChars s.data)

/-- Helper for splitting on the dot character; `cur` holds the current
token reversed. -/
def splitDotGo (cur : List Char) : List Char → List (List Char)
  | [] => [cur.reverse]
  | c :: cs => if c = '.' then cur.reverse :: splitDotGo [] cs else splitDotGo (c :: cur) cs

/-- Model of Python value.split(".") (never returns an empty list). -/
def pySplitDot (s : List Char) : List (List Char) := splitDotGo [] s

/-- Model of Python str.isdigit() restricted to ASCII digits (the source
is only ever fed ASCII version strings). -/
def pyIsDigits (s : List Char) : Bool := !s.isEmpty && s.all Char.isDigit

/-- Value of a decimal digit string, the model of Python int(p) on a
digit-only string. -/
def digitsToNat (s : List Char) : Nat :=
  s.foldl (fun a c => a * 10 + (c.toNat - 48)) 0

/-! ## FFSF v3 runtime geometry (src/cadis_runtime/dataset/ffsf_runtime.py) -/

/-- Embedding of `_round_half_up`: int(math.floor(value + 0.5)). -/
def round_half_up (x : ℚ) : Int := ⌊x + 1 / 2⌋

/-- Embedding of `_quantize`: quantize a coordinate into a part bounding
box, clamped to the u16 range, returning 0 on a degenerate span. -/
def quantize (value min_value span : ℚ) : Int :=
  if span = 0 then 0
  else
    let scaled : ℚ := (value - min_value) / span * 65535
    if scaled ≤ 0 then 0
    else if 65535 ≤ scaled then 65535
    else round_half_up scaled

/-- Embedding of `_point_on_segment`: bbox reject then the exact integer
collinearity predicate. -/
def point_on_segment (px py x1 y1 x2 y2 : Int) : Bool :=
  if px < min x1 x2 || px > max x1 x2 then false
  else if py < min y1 y2 || py > max y1 y2 then false
  else (x2 - x1) * (py - y1) == (y2 - y1) * (px - x1)

/-- Exact model of the ray-casting comparison `qx < x_cross` where
`x_cross = (xj - xi) * (qy - yi) / den + xi` is computed by the source in
IEEE double arithmetic with `den = yj - yi ≠ 0`.  All quantities are
integers bounded by 2^17 in magnitude, so the exact rational value of
`x_cross - qx`, when non-zero, has magnitude at least `1/|den| ≥ 2^-17`,
far above the bound `≈ 2^-36` on the accumulated double rounding error;
hence the float comparison agrees with this exact integer comparison. -/
def lt_x_cross (qx qy xi yi xj yj : Int) : Bool :=
  let den := yj - yi
  let num := (xj - xi) * (qy - yi)
  if 0 < den then decide ((qx - xi) * den < num) else decide (num < (qx - xi) * den)

/-- One pass of the `_point_in_ring` loop over the explicit edge list
(edge = (previous point, current point)); returns true immediately when
the query point lies exactly on an edge, otherwise threads the even-odd
crossing parity. -/
def pointInRingLoop (qx qy : Int) : List ((Int × Int) × (Int × Int)) → Bool → Bool
  | [], inside => inside
  | ((xj, yj), (xi, yi)) :: rest, inside =>
    if point_on_segment qx qy xj yj xi yi then true
    else
      let inside' :=
        if (decide (qy < yi)) != (decide (qy < yj)) then
          if yj - yi ≠ 0 then
            if lt_x_cross qx qy xi yi xj yj then !inside else inside
          else inside
        else inside
      pointInRingLoop qx qy rest inside'

/-- The edge list traversed by `_point_in_ring`: j starts at the last
index, so the edges are (last, first), (first, second), ... -/
def ringEdges (ring : List (Int × Int)) : List ((Int × Int) × (Int × Int)) :=
  match ring with
  | [] => []
  | p :: _ => List.zip (ring.getLastD p :: ring.dropLast) ring

/-- Embedding of `_point_in_ring`: even-odd ray casting in quantized
integer space, with boundary counted as inside. -/
def point_in_ring (qx qy : Int) (ring : List (Int × Int)) : Bool :=
  if ring.length < 3 then false
  else pointInRingLoop qx qy (ringEdges ring) false

/-- A polygon part: its float bounding box and its quantized rings as
decoded by `_read_rings` (ring 0 is the outer ring, the rest are holes). -/
structure Part where
  minx : ℚ
  miny : ℚ
  maxx : ℚ
  maxy : ℚ
  rings : List (List (Int × Int))

/-- Embedding of `_part_contains_point`: float bbox reject, query-point
quantization, outer-ring test, then hole tests. -/
def part_contains_point (part : Part) (ptx pty : ℚ) : Bool :=
  if !(decide (part.minx ≤ ptx) && decide (ptx ≤ part.maxx)
       && decide (part.miny ≤ pty) && decide (pty ≤ part.maxy)) then false
  else
    let qx := quantize ptx part.minx (part.maxx - part.minx)
    let qy := quantize pty part.miny (part.maxy - part.miny)
    match part.rings with
    | [] => false
    | outer :: holes =>
      if outer.isEmpty then false
      else if ! point_in_ring qx qy outer then false
      else if holes.any (fun h => !h.isEmpty && point_in_ring qx qy h) then false
      else true

/-- A feature of the in-memory index: its metadata record together with
its materialized parts. -/
structure Feature where
  level : Int
  name : String
  feature_id : String
  parts : List Part

/-- Embedding of `_feature_contains_point`. -/
def feature_contains_point (f : Feature) (ptx pty : ℚ) : Bool :=
  f.parts.any (fun p => part_contains_point p ptx pty)

/-- A per-level hit as built by query_point. -/
structure Hit where
  level : Int
  name : String
  osm_id : Option String
  source : String
deriving DecidableEq

/-- The hit record built for a containing feature. -/
def hitOf (f : Feature) : Hit :=
  { level := f.level, name := f.name, osm_id := some f.feature_id, source := "polygon" }

/-- The scan loop of `FFSFSpatialIndexV3.query_point`: first matching
feature per requested level, in feature order.  The source's early break
(once every requested level is resolved) is omitted: past that point
every remaining feature is skipped by the level-already-resolved guard,
so the returned mapping is unchanged. -/
def query_point_go (ptx pty : ℚ) (levels : List Int) (hits : List (Int × Hit)) :
    List Feature → List (Int × Hit)
  | [] => hits
  | f :: rest =>
    if !(decide (f.level ∈ levels)) then query_point_go ptx pty levels hits rest
    else if (lookupZ hits f.level).isSome then query_point_go ptx pty levels hits rest
    else if feature_contains_point f ptx pty then
      query_point_go ptx pty levels (hits ++ [(f.level, hitOf f)]) rest
    else query_point_go ptx pty levels hits rest

/-- Embedding of `FFSFSpatialIndexV3.query_point`. -/
def query_point (features : List Feature) (ptx pty : ℚ) (levels : List Int) :
    List (Int × Hit) :=
  query_point_go ptx pty levels [] features

/-! ## Evidence pipeline (packages/cadis-core/src/cadis_core/core.py and
src/cadis_runtime/execution/pipeline.py)

Telemetry emission is logging-only in the source and is dropped.  A raw
evidence node is a dict that may be missing its level and source keys; a
normalized node always carries them plus an evidence_type tag. -/

/-- A raw evidence node (value of a polygon_hits / provider dict). -/
structure RawNode where
  level : Option Int
  name : String
  osm_id : Option String
  source : Option String
deriving DecidableEq

/-- A normalized evidence node as produced by the collect/normalize
stages of AdminEngineCore. -/
structure Node where
  level : Int
  name : String
  osm_id : Option String
  source : String
  evidence_type : String
deriving DecidableEq

/-- Keys of an Int-keyed dict in insertion order. -/
def keysZ {β : Type} (m : List (Int × β)) : List Int := m.map Prod.fst

/-- Embedding of `AdminEngineCore.collect_geometry_evidence`: iterate the
hit levels in ascending key order, defaulting level to the key, source to
"polygon", and tagging evidence_type = "geometry". -/
def collect_geometry_evidence (polygon_hits : List (Int × RawNode)) : List (Int × Node) :=
  (sortInts (keysZ polygon_hits)).filterMap fun l =>
    (lookupZ polygon_hits l).map fun r =>
      (l, { level := r.level.getD l, name := r.name, osm_id := r.osm_id,
            source := r.source.getD "polygon", evidence_type := "geometry" })

/-- Embedding of `AdminEngineCore._normalize_supplement_nodes`. -/
def normalize_supplement_nodes (supplement_nodes : List (Int × RawNode))
    (source_default evidence_type_default : String)
    (allowed_levels : List Int) (existing_levels : List Int) : List (Int × Node) :=
  (sortInts (keysZ supplement_nodes)).filterMap fun l =>
    if l ∈ existing_levels || !(decide (l ∈ allowed_levels)) then none
    else
      (lookupZ supplement_nodes l).map fun r =>
        (l, { level := r.level.getD l, name := r.name, osm_id := r.osm_id,
              source := r.source.getD source_default,
              evidence_type := evidence_type_default })

/-- A hierarchy/repair provider: evidence and missing levels in, raw
supplement dict out (the Python callables injected by the pipeline). -/
def Provider : Type := List (Int × Node) → List Int → List (Int × RawNode)

/-- Embedding of `AdminEngineCore.supplement_from_hierarchy`. -/
def supplement_from_hierarchy (geometry_evidence : List (Int × Node))
    (allowed_levels : List Int) (hierarchy_provider : Option Provider) : List (Int × Node) :=
  let missing_levels := allowed_levels.filter (fun l => !(decide (l ∈ keysZ geometry_evidence)))
  let raw : List (Int × RawNode) :=
    match hierarchy_provider with
    | some p => if missing_levels.isEmpty then [] else p geometry_evidence missing_levels
    | none => []
  normalize_supplement_nodes raw "admin_tree_name" "hierarchy_repair"
    allowed_levels (keysZ geometry_evidence)

/-- Embedding of `AdminEngineCore.supplement_from_repair_dataset`. -/
def supplement_from_repair_dataset (merged_evidence : List (Int × Node))
    (allowed_levels : List Int) (repair_provider : Option Provider) : List (Int × Node) :=
  let missing_levels := allowed_levels.filter (fun l => !(decide (l ∈ keysZ merged_evidence)))
  let raw : List (Int × RawNode) :=
    match repair_provider with
    | some p => if missing_levels.isEmpty then [] else p merged_evidence missing_levels
    | none => []
  normalize_supplement_nodes raw "semantic_anchor" "semantic_anchor"
    allowed_levels (keysZ merged_evidence)

/-- Embedding of `AdminEngineCore._merge_evidence_in_priority_order` for
one layer folded into the accumulator. -/
def mergeLayer (merged layer : List (Int × Node)) : List (Int × Node) :=
  (sortInts (keysZ layer)).foldl
    (fun acc l =>
      if (lookupZ acc l).isSome then acc
      else match lookupZ layer l with
        | some v => acc ++ [(l, v)]
        | none => acc)
    merged

/-- Embedding of `AdminEngineCore._merge_evidence_in_priority_order`:
first-seen wins per level across the layers in priority order. -/
def merge_evidence_in_priority_order (layers : List (List (Int × Node))) : List (Int × Node) :=
  layers.foldl mergeLayer []

/-- Embedding of `AdminEngineCore.collect_nodes` on a dict input: the
dict values in insertion order. -/
def collect_nodes (merged : List (Int × Node)) : List Node := merged.map Prod.snd

/-- Embedding of `AdminEngineCore.filter_allowed_levels`. -/
def filter_allowed_levels (nodes : List Node) (allowed_levels : List Int) : List Node :=
  nodes.filter (fun n => decide (n.level ∈ allowed_levels))

/-- Embedding of `AdminEngineCore.sort_by_level`: Python's stable sort on
the level key. -/
def sort_by_level (nodes : List Node) : List Node :=
  sortLe (fun a b => decide (a.level ≤ b.level)) nodes

/-- The deduplication key (level, osm_id, name, source). -/
def dedupKey (n : Node) : Int × Option String × String × String :=
  (n.level, n.osm_id, n.name, n.source)

/-- The loop of `AdminEngineCore.deduplicate`. -/
def dedupGo (seen : List (Int × Option String × String × String)) :
    List Node → List Node
  | [] => []
  | n :: rest =>
    if dedupKey n ∈ seen then dedupGo seen rest
    else n :: dedupGo (dedupKey n :: seen) rest

/-- Embedding of `AdminEngineCore.deduplicate`: drop exact duplicates by
(level, osm_id, name, source), keeping first occurrences. -/
def deduplicate (nodes : List Node) : List Node := dedupGo [] nodes

/-- First-match association lookup for shape-keyed dicts. -/
def lookupShape {β : Type} (m : List (List Int × β)) (k : List Int) : Option β :=
  match m with
  | [] => none
  | (k0, v) :: rest => if k0 = k then some v else lookupShape rest k

/-- Embedding of `AdminEngineCore.validate_allowed_shapes`.  The Python
guard `shape_status_map and shape in shape_status_map` is equivalent to a
successful lookup (an empty dict has no keys). -/
def validate_allowed_shapes (nodes : List Node)
    (allowed_shapes : List (List Int)) (shape_status_map : List (List Int × String)) :
    String × List Int :=
  let shape := sortedDedupInts (nodes.map Node.level)
  if !(decide (shape ∈ allowed_shapes)) then ("failed", shape)
  else
    match lookupShape shape_status_map shape with
    | some s => (s, shape)
    | none => ("partial", shape)

/-- Embedding of `evaluate_lookup_status` (execution/pipeline.py): the
status evaluator the runtime pipeline injects into the core. -/
def evaluate_lookup_status (nodes : List Node)
    (allowed_shapes : List (List Int)) (shape_status_map : List (List Int × String)) : String :=
  if nodes.isEmpty then "failed"
  else
    let levels := sortedDedupInts (nodes.map Node.level)
    if !(decide (levels ∈ allowed_shapes)) then "failed"
    else ((lookupShape shape_status_map levels).getD "partial")

/-- The loop of `AdminEngineCore._assign_rank`, carrying the next rank. -/
def assignRankGo (i : Nat) : List Node → List (Nat × Node)
  | [] => []
  | n :: rest => (i, n) :: assignRankGo (i + 1) rest

/-- Embedding of `AdminEngineCore._assign_rank`: pair each node with its
position. -/
def assign_rank (nodes : List Node) : List (Nat × Node) := assignRankGo 0 nodes

/-- One entry of the public admin_hierarchy list. -/
structure HierarchyEntry where
  rank : Nat
  osm_id : Option String
  level : Int
  name : String
  source : String
deriving DecidableEq

/-- The public result bundle built by `build_base_result`; country.level
is the constant 2 in the source and is not repeated here. -/
structure Bundle where
  lookup_status : String
  engine : String
  version : String
  country_name : String
  admin_hierarchy : List HierarchyEntry
  result_source : Option String
  context_anchor : Option String
  semantic_overlays : List (String × List (String × String))
deriving DecidableEq

/-- Embedding of `AdminEngineCore.build_base_result`.  A fresh bundle has
no semantic_overlays key; the empty list models its absence. -/
def build_base_result (nodes : List (Nat × Node)) (status engine version country_name : String)
    (result_source context_anchor : Option String) : Bundle :=
  { lookup_status := status, engine := engine, version := version,
    country_name := country_name,
    admin_hierarchy := nodes.map (fun p =>
      { rank := p.1, osm_id := p.2.osm_id, level := p.2.level,
        name := p.2.name, source := p.2.source }),
    result_source := result_source, context_anchor := context_anchor,
    semantic_overlays := [] }

/-- Embedding of `AdminEngineCore.assemble_result`: stable level sort,
dense rank assignment, public envelope. -/
def assemble_result (nodes : List Node) (status engine version country_name : String)
    (result_source context_anchor : Option String) : Bundle :=
  build_base_result (assign_rank (sort_by_level nodes)) status engine version country_name
    result_source context_anchor

/-- The record returned by `run_v2_shadow_pipeline` (stages dropped; the
claims are about the result bundles). -/
structure PipelineResult where
  internal_nodes : List (Nat × Node)
  internal_status : String
  public : Bundle

/-- Embedding of `AdminEngineCore.run_v2_shadow_pipeline`. -/
def run_v2_shadow_pipeline (polygon_hits : List (Int × RawNode))
    (allowed_levels : List Int) (allowed_shapes : List (List Int))
    (engine version country_name : String)
    (hierarchy_provider repair_provider : Option Provider)
    (status_evaluator : Option (List Node → String))
    (shape_status_map : List (List Int × String))
    (result_source context_anchor : Option String) : PipelineResult :=
  let geometry := collect_geometry_evidence polygon_hits
  let hierarchy_supplement := supplement_from_hierarchy geometry allowed_levels hierarchy_provider
  let merged_after_hierarchy := merge_evidence_in_priority_order [geometry, hierarchy_supplement]
  let repair_supplement :=
    supplement_from_repair_dataset merged_after_hierarchy allowed_levels repair_provider
  let merged := merge_evidence_in_priority_order [geometry, hierarchy_supplement, repair_supplement]
  let nodes0 := collect_nodes merged
  let nodes1 := filter_allowed_levels nodes0 allowed_levels
  let nodes2 := sort_by_level nodes1
  let nodes := deduplicate nodes2
  let sv := validate_allowed_shapes nodes allowed_shapes shape_status_map
  let status :=
    match status_evaluator with
    | some ev => ev nodes
    | none => sv.1
  let final_nodes := if status ≠ "failed" then nodes else []
  { internal_nodes := assign_rank final_nodes,
    internal_status := status,
    public := assemble_result final_nodes status engine version country_name
      result_source context_anchor }

/-! ## Safe tar extraction (packages/cadis-cdn/src/cadis_cdn/archive.py)

Paths are modelled as component lists; `target_dir` is given already
absolute (the source calls `.resolve()` on it) and `Path.resolve()` is
modelled lexically — components "." and "" are dropped and ".." pops —
which is exact on a symlink-free filesystem. -/

/-- A path as it appears inside a tar member name: possibly absolute,
with raw components. -/
structure PyPath where
  absolute : Bool
  comps : List String
deriving DecidableEq

/-- Lexical model of `Path.resolve()` on an absolute component list. -/
def resolveComps (acc : List String) : List String → List String
  | [] => acc
  | c :: rest =>
    if c = "." || c = "" then resolveComps acc rest
    else if c = ".." then resolveComps acc.dropLast rest
    else resolveComps (acc ++ [c]) rest

/-- Model of `target_dir / member.name`: an absolute member name replaces
the base (pathlib semantics), a relative one is appended. -/
def joinPyPath (base : List String) (m : PyPath) : List String :=
  if m.absolute then m.comps else base ++ m.comps

/-- Model of `str(path)` for an absolute component list. -/
def pathStr (comps : List String) : String :=
  comps.foldl (fun a c => a ++ "/" ++ c) ""

/-- Model of Python str.startswith. -/
def pyStartsWith (s p : String) : Bool := p.data.isPrefixOf s.data

/-- The resolved destination `(target_dir / member.name).resolve()` of a
member. -/
def member_dest (target : List String) (m : PyPath) : List String :=
  resolveComps [] (joinPyPath target m)

/-- A destination lies inside the target directory when the resolved
target's components are a prefix of the destination's components. -/
def insideTarget (targetResolved dest : List String) : Bool :=
  targetResolved.isPrefixOf dest

/-- Embedding of `safe_extract_tar_gz`: every member's resolved
destination string must start with the resolved target string, else a
ValueError is raised before anything is extracted; on success extractall
writes every member to its destination (the returned list). -/
def safe_extract_tar_gz (target : List String) (members : List PyPath) :
    Except String (List (List String)) :=
  let targetResolved := resolveComps [] target
  if members.all (fun m => pyStartsWith (pathStr (member_dest target m)) (pathStr targetResolved))
  then .ok (members.map (member_dest target))
  else .error "Unsafe tar entry path"

/-! ## Runtime compatibility (packages/cadis-cdn/src/cadis_cdn/runtime_compat.py)

The manifest fields runtime_compat.min / runtime_compat.max_exclusive are
passed as the two strings; the source's non-string / missing-key failures
are outside the typed embedding.  str.isdigit is modelled on ASCII digits
(the only digits the version strings of this system contain). -/

/-- Embedding of `parse_semver`: strip, drop one leading v, split on
".", require every component to be digits, convert to a tuple of ints.
The source interpolates the field name into the message; the message text
is irrelevant to the claims. -/
def parse_semver (raw : String) : Except String (List Nat) :=
  let value := pyStripChars raw.data
  let value := if value.head? = some 'v' then value.drop 1 else value
  let parts := pySplitDot value
  if parts.isEmpty || parts.any (fun p => ! pyIsDigits p) then
    .error "Manifest invalid version (expected semver-like digits, e.g. 2.0.0)."
  else .ok (parts.map digitsToNat)

/-- Embedding of `validate_manifest_runtime_compatibility` given the two
runtime_compat strings and the runtime version. -/
def validate_manifest_runtime_compatibility
    (min_cadis_version max_cadis_version_exclusive runtime_version : String) :
    Except String (String × String) :=
  if (pyStripChars min_cadis_version.data).isEmpty then
    .error "Manifest missing runtime_compat.min."
  else if (pyStripChars max_cadis_version_exclusive.data).isEmpty then
    .error "Manifest missing runtime_compat.max_exclusive."
  else
    match parse_semver runtime_version with
    | .error e => .error e
    | .ok runtime_v =>
      match parse_semver min_cadis_version with
      | .error e => .error e
      | .ok min_v =>
        match parse_semver max_cadis_version_exclusive with
        | .error e => .error e
        | .ok max_v =>
          if ! natListLt min_v max_v then
            .error "Manifest has invalid runtime range: min_cadis_version must be < max_cadis_version_exclusive."
          else if natListLt runtime_v min_v then
            .error "Cadis runtime is lower than required min_cadis_version."
          else if ! natListLt runtime_v max_v then
            .error "Cadis runtime is not supported (>= max_cadis_version_exclusive)."
          else .ok (pyStrip min_cadis_version, pyStrip max_cadis_version_exclusive)

/-! ## Bootstrap cache selection (packages/cadis-cdn/src/cadis_cdn/bootstrap.py)

The filesystem under `cache_root/ISO2/dataset_id` is modelled as the list
of its directory entries; an absent versions root is the empty entry
list.  `required_files_present` returning a non-empty missing list is
abstracted as the boolean `requiredMissing` on the version name, and the
injected `validate_dataset_dir` callable (which loads and checks the
runtime policy and may raise) as an Except-valued function on the version
name, so that an exception raised for a files-present but invalid
candidate propagates out of the selection loop exactly as in the
source. -/

/-- Embedding of `parse_version_for_sort`: like parse_semver but a
non-semver name yields the empty tuple instead of an error. -/
def parse_version_for_sort (raw : String) : List Nat :=
  let value := pyStripChars raw.data
  let value := if value.head? = some 'v' then value.drop 1 else value
  let parts := pySplitDot value
  if parts.isEmpty || parts.any (fun p => ! pyIsDigits p) then []
  else parts.map digitsToNat

/-- One entry of the versions directory. -/
structure DirEntry where
  name : String
  isDirectory : Bool
deriving DecidableEq

/-- Python tuple comparison on sort candidates (parsed tuple, name); the
third Path component of the source triple is determined by the name and
never reached. -/
def candLt (a b : List Nat × String) : Bool :=
  natListLt a.1 b.1 || (a.1 == b.1 && charListLt a.2.data b.2.data)

/-- Comparator giving `candidates.sort(reverse=True)` order. -/
def candGe (a b : List Nat × String) : Bool := ! candLt a b

/-- The record returned by `find_local_cached_dataset` on a cache hit. -/
structure CachedResult where
  country_iso2 : String
  dataset_id : String
  dataset_version : String
  used_cached_dataset : Bool
deriving DecidableEq

/-- Embedding of `validate_cached_dataset_dir`: False when required files
are missing, otherwise the injected `validate_dataset_dir` runs (and may
raise, modelled as `.error`) before True is returned. -/
def validate_cached_dataset_dir (requiredMissing : String → Bool)
    (validate_dataset_dir : String → Except String Unit) (version : String) :
    Except String Bool :=
  if requiredMissing version then .ok false
  else
    match validate_dataset_dir version with
    | .error e => .error e
    | .ok _ => .ok true

/-- The candidate loop of `find_local_cached_dataset`: first candidate
whose `validate_cached_dataset_dir` returns True wins; an exception from
validation aborts the whole loop. -/
def findLocalGo (iso2 dataset_id : String) (requiredMissing : String → Bool)
    (validate_dataset_dir : String → Except String Unit) :
    List (List Nat × String) → Except String (Option CachedResult)
  | [] => .ok none
  | c :: rest =>
    match validate_cached_dataset_dir requiredMissing validate_dataset_dir c.2 with
    | .error e => .error e
    | .ok true => .ok (some { country_iso2 := iso2, dataset_id := dataset_id,
                              dataset_version := c.2, used_cached_dataset := true })
    | .ok false => findLocalGo iso2 dataset_id requiredMissing validate_dataset_dir rest

/-- Embedding of `find_local_cached_dataset`: keep directory entries with
a non-empty parsed version tuple, sort them descending, return the first
that validates; a validation exception propagates. -/
def find_local_cached_dataset (iso2 dataset_id : String) (entries : List DirEntry)
    (requiredMissing : String → Bool)
    (validate_dataset_dir : String → Except String Unit) :
    Except String (Option CachedResult) :=
  let candidates := entries.filterMap fun e =>
    if e.isDirectory && !(parse_version_for_sort e.name).isEmpty
    then some (parse_version_for_sort e.name, e.name) else none
  findLocalGo iso2 dataset_id requiredMissing validate_dataset_dir
    (sortLe candGe candidates)

/-- Where control flow of `bootstrap_country_dataset` ends up: reusing a
cached dataset (carrying the update_checked flag of the returned record),
or reaching `resolve_pinned_release` / `resolve_latest_release`, whose
first action is an HTTP fetch. -/
inductive BootstrapOutcome
  | cached (result : CachedResult) (update_checked : Bool)
  | network
deriving DecidableEq

/-- Embedding of `bootstrap_country_dataset` up to the first network
operation.  The pinned-directory existence check is `entries` membership;
everything after a download starts is collapsed into `.network`; an
exception escaping validation of a cached candidate propagates. -/
def bootstrap_country_dataset (iso2 dataset_id : String) (entries : List DirEntry)
    (requiredMissing : String → Bool)
    (validate_dataset_dir : String → Except String Unit)
    (update_to_latest : Bool) (pinned_version : Option String) :
    Except String BootstrapOutcome :=
  match pinned_version with
  | some v =>
    if entries.any (fun e => e.name == v) then
      match validate_cached_dataset_dir requiredMissing validate_dataset_dir v with
      | .error e => .error e
      | .ok true =>
        .ok (.cached { country_iso2 := iso2, dataset_id := dataset_id,
                       dataset_version := v, used_cached_dataset := true } false)
      | .ok false => .ok .network
    else .ok .network
  | none =>
    match find_local_cached_dataset iso2 dataset_id entries
        requiredMissing validate_dataset_dir with
    | .error e => .error e
    | .ok (some r) => if !update_to_latest then .ok (.cached r false) else .ok .network
    | .ok none => .ok .network

/-! ## Hashing (packages/cadis-cdn/src/cadis_cdn/hashing.py)

`hashlib.sha256` is embedded as the FIPS 180-4 SHA-256 function over byte
lists; an incremental sequence of update calls hashes the concatenation
of the updated chunks, so `bundle_checksum_from_files` hashes one
explicit byte stream. -/

/-- Big-endian byte expansion of a value into `n` bytes. -/
def beBytes : Nat → Nat → List Nat
  | 0, _ => []
  | n + 1, v => beBytes n (v / 256) ++ [v % 256]

/-- 32-bit right rotation. -/
def rotr32 (n x : Nat) : Nat := ((x >>> n) ||| (x <<< (32 - n))) % 4294967296

/-- SHA-256 small sigma-0. -/
def ssig0 (x : Nat) : Nat := rotr32 7 x ^^^ rotr32 18 x ^^^ (x >>> 3)

/-- SHA-256 small sigma-1. -/
def ssig1 (x : Nat) : Nat := rotr32 17 x ^^^ rotr32 19 x ^^^ (x >>> 10)

/-- SHA-256 big sigma-0. -/
def bsig0 (x : Nat) : Nat := rotr32 2 x ^^^ rotr32 13 x ^^^ rotr32 22 x

/-- SHA-256 big sigma-1. -/
def bsig1 (x : Nat) : Nat := rotr32 6 x ^^^ rotr32 11 x ^^^ rotr32 25 x

/-- SHA-256 choice function. -/
def sha2ch (x y z : Nat) : Nat := (x &&& y) ^^^ ((x ^^^ 4294967295) &&& z)

/-- SHA-256 majority function. -/
def sha2maj (x y z : Nat) : Nat := (x &&& y) ^^^ (x &&& z) ^^^ (y &&& z)

/-- The 64 SHA-256 round constants (FIPS 180-4, in decimal). -/
def sha256K : List Nat :=
  [1116352408, 1899447441, 3049323471, 3921009573, 961987163,
   1508970993, 2453635748, 2870763221, 3624381080, 310598401,
   607225278, 1426881987, 1925078388, 2162078206, 2614888103,
   3248222580, 3835390401, 4022224774, 264347078, 604807628,
   770255983, 1249150122, 1555081692, 1996064986, 2554220882,
   2821834349, 2952996808, 3210313671, 3336571891, 3584528711,
   113926993, 338241895, 666307205, 773529912, 1294757372,
   1396182291, 1695183700, 1986661051, 2177026350, 2456956037,
   2730485921, 2820302411, 3259730800, 3345764771, 3516065817,
   3600352804, 4094571909, 275423344, 430227734, 506948616,
   659060556, 883997877, 958139571, 1322822218, 1537002063,
   1747873779, 1955562222, 2024104815, 2227730452, 2361852424,
   2428436474, 2756734187, 3204031479, 3329325298]

/-- The initial SHA-256 hash state (FIPS 180-4, in decimal). -/
def sha256InitH : List Nat :=
  [1779033703, 3144134277, 1013904242, 2773480762,
   1359893119, 2600822924, 528734635, 1541459225]

/-- SHA-256 message padding: 0x80, zeros to 56 mod 64, then the bit
length as 8 big-endian bytes. -/
def sha256Pad (msg : List Nat) : List Nat :=
  msg ++ [128] ++ List.replicate ((119 - (msg.length % 64)) % 64) 0 ++ beBytes 8 (8 * msg.length)

/-- Big-endian 4-byte groups to 32-bit words. -/
def bytesToWordsBE : List Nat → List Nat
  | a :: b :: c :: d :: rest => (((a * 256 + b) * 256 + c) * 256 + d) :: bytesToWordsBE rest
  | _ => []

/-- Fuel-driven chunking into 16-word blocks (the padded word count is
the obvious fuel bound). -/
def toBlocksGo : Nat → List Nat → List (List Nat)
  | 0, _ => []
  | _, [] => []
  | fuel + 1, w => w.take 16 :: toBlocksGo fuel (w.drop 16)

/-- Chunk a word list into 16-word blocks. -/
def toBlocks (w : List Nat) : List (List Nat) := toBlocksGo w.length w

/-- Extend a 16-word block to the 64-entry message schedule. -/
def sha256Schedule (block : List Nat) : List Nat :=
  (List.range 48).foldl
    (fun w _ =>
      let n := w.length
      w ++ [(ssig1 (w.getD (n - 2) 0) + w.getD (n - 7) 0
             + ssig0 (w.getD (n - 15) 0) + w.getD (n - 16) 0) % 4294967296])
    block

/-- One SHA-256 compression round. -/
def sha256Round (st : List Nat) (kw : Nat × Nat) : List Nat :=
  let a := st.getD 0 0
  let b := st.getD 1 0
  let c := st.getD 2 0
  let d := st.getD 3 0
  let e := st.getD 4 0
  let f := st.getD 5 0
  let g := st.getD 6 0
  let hh := st.getD 7 0
  let t1 := (hh + bsig1 e + sha2ch e f g + kw.1 + kw.2) % 4294967296
  let t2 := (bsig0 a + sha2maj a b c) % 4294967296
  [(t1 + t2) % 4294967296, a, b, c, (d + t1) % 4294967296, e, f, g]

/-- Compress one block into the running hash state. -/
def sha256Compress (h : List Nat) (block : List Nat) : List Nat :=
  let s := (List.zip sha256K (sha256Schedule block)).foldl sha256Round h
  List.zipWith (fun x y => (x + y) % 4294967296) h s

/-- SHA-256 of a byte list, as 32 digest bytes. -/
def sha256Bytes (msg : List Nat) : List Nat :=
  ((toBlocks (bytesToWordsBE (sha256Pad msg))).foldl sha256Compress sha256InitH).foldr
    (fun w acc => beBytes 4 w ++ acc) []

/-- Lowercase hex digit. -/
def hexChar (n : Nat) : Char :=
  if n < 10 then Char.ofNat (48 + n) else Char.ofNat (87 + n)

/-- Lowercase hex string of a byte list (hexdigest). -/
def bytesToHex (bs : List Nat) : String :=
  String.mk (bs.foldr (fun b acc => hexChar (b / 16) :: hexChar (b % 16) :: acc) [])

/-- UTF-8 encoding of one character. -/
def utf8Bytes (c : Char) : List Nat :=
  let n := c.toNat
  if n < 128 then [n]
  else if n < 2048 then [192 + n / 64, 128 + n % 64]
  else if n < 65536 then [224 + n / 4096, 128 + (n / 64) % 64, 128 + n % 64]
  else [240 + n / 262144, 128 + (n / 4096) % 64, 128 + (n / 64) % 64, 128 + n % 64]

/-- UTF-8 encoding of a string. -/
def utf8Str (s : String) : List Nat :=
  s.data.foldr (fun c acc => utf8Bytes c ++ acc) []

/-- The byte stream fed to the digest by `bundle_checksum_from_files`:
for each key in sorted order, key, NUL, its value, NUL.  The subscript
`checksums[rel]` always succeeds because rel ranges over the dict's own
keys; the default is unreachable. -/
def bundleUpdates (checksums : List (String × String)) : List Nat :=
  (sortLe strLeB (checksums.map Prod.fst)).foldl
    (fun acc rel => acc ++ utf8Str rel ++ [0] ++ utf8Str ((lookupS checksums rel).getD "") ++ [0])
    []

/-- Embedding of `bundle_checksum_from_files`. -/
def bundle_checksum_from_files (checksums : List (String × String)) : String :=
  bytesToHex (sha256Bytes (bundleUpdates checksums))

/-! ## Semantic overlays (src/cadis_runtime/dataset/loader.py)

The mutation structure of `apply_semantic_overlays` is made explicit with
a small heap: a bundle object is a cell of a list, `copy.deepcopy`
allocates a fresh cell (deep copying severs all sharing, so one cell per
bundle is exact), and every write of the source targets the fresh copy.
The theorems about the caller's bundle are statements about the caller's
cell after the call. -/

/-- A loaded semantic overlay. -/
structure SemanticOverlay where
  name : String
  file : String
  result_metadata : List (String × String)
  name_overrides_by_osm_id : List (String × String)
deriving DecidableEq

/-- The value computed by `SemanticOverlay.apply` for its freshly
deep-copied bundle: attach the overlay metadata when non-empty, then
rewrite names of nodes whose string osm_id has an override. -/
def overlayApplyValue (ov : SemanticOverlay) (b : Bundle) : Bundle :=
  let b1 :=
    if ov.result_metadata.isEmpty then b
    else { b with semantic_overlays := setS b.semantic_overlays ov.name ov.result_metadata }
  if ov.name_overrides_by_osm_id.isEmpty then b1
  else
    { b1 with admin_hierarchy := b1.admin_hierarchy.map fun n =>
        match n.osm_id with
        | some i =>
          match lookupS ov.name_overrides_by_osm_id i with
          | some newName => { n with name := newName }
          | none => n
        | none => n }

/-- The object heap: bundle cells addressed by allocation index. -/
abbrev Heap := List Bundle

/-- Allocate a fresh cell (the model of copy.deepcopy's result). -/
def heapAlloc (h : Heap) (b : Bundle) : Heap × Nat := (h ++ [b], h.length)

/-- Heap-level `SemanticOverlay.apply`: deep-copy the argument object and
perform all writes on the copy, returning its reference. -/
def overlayApplyHeap (ov : SemanticOverlay) (h : Heap) (r : Nat) : Heap × Nat :=
  match h.get? r with
  | none => (h, r)
  | some b => heapAlloc h (overlayApplyValue ov b)

/-- Embedding of `apply_semantic_overlays`: return the argument object
itself when there are no overlays; otherwise record the pre-application
status/structure, deep-copy, fold the overlays (each applying to a fresh
copy), and re-check the five structural invariants, raising RuntimeError
on any violation. -/
def apply_semantic_overlays (h : Heap) (r : Nat) (overlays : List SemanticOverlay) :
    Heap × Except String Nat :=
  if overlays.isEmpty then (h, .ok r)
  else
    match h.get? r with
    | none => (h, .error "invalid reference")
    | some b0 =>
      let copied := heapAlloc h b0
      let folded := overlays.foldl (fun (st : Heap × Nat) ov => overlayApplyHeap ov st.1 st.2) copied
      match folded.1.get? folded.2 with
      | none => (folded.1, .error "invalid reference")
      | some bOut =>
        if bOut.lookup_status ≠ b0.lookup_status then
          (folded.1, .error "semantic overlay must not modify lookup_status.")
        else if bOut.admin_hierarchy.length ≠ b0.admin_hierarchy.length then
          (folded.1, .error "semantic overlay must not change hierarchy node count.")
        else if bOut.admin_hierarchy.map HierarchyEntry.osm_id
            ≠ b0.admin_hierarchy.map HierarchyEntry.osm_id then
          (folded.1, .error "semantic overlay must not modify/reorder osm_id sequence.")
        else if bOut.admin_hierarchy.map HierarchyEntry.level
            ≠ b0.admin_hierarchy.map HierarchyEntry.level then
          (folded.1, .error "semantic overlay must not modify structural hierarchy levels.")
        else if bOut.admin_hierarchy.map HierarchyEntry.rank
            ≠ b0.admin_hierarchy.map HierarchyEntry.rank then
          (folded.1, .error "semantic overlay must not modify/reorder rank sequence.")
        else (folded.1, .ok folded.2)

/-! ## Helper definitions used by the statements -/

/-- A square part with a square hole, in a bounding box on which
quantization is the identity on integer coordinates. -/
def holePart : Part :=
  { minx := 0, miny := 0, maxx := 65535, maxy := 65535,
    rings := [[(0, 0), (100, 0), (100, 100), (0, 100)],
              [(20, 20), (60, 20), (60, 60), (20, 60)]] }

/-- A single-feature index holding `holePart` at level 4. -/
def holeFeature : Feature :=
  { level := 4, name := "F", feature_id := "R1", parts := [holePart] }

/-- A plain square part with no holes. -/
def squarePart : Part :=
  { minx := 0, miny := 0, maxx := 65535, maxy := 65535,
    rings := [[(0, 0), (100, 0), (100, 100), (0, 100)]] }

/-- A single-feature index holding `squarePart` at level 4. -/
def squareFeature : Feature :=
  { level := 4, name := "F", feature_id := "R1", parts := [squarePart] }

/-- Totality of a boolean comparator. -/
def IsTotalB {α : Type} (le : α → α → Bool) : Prop :=
  ∀ a b, le a b = true ∨ le b a = true

/-- Transitivity of a boolean comparator. -/
def IsTransB {α : Type} (le : α → α → Bool) : Prop :=
  ∀ a b c, le a b = true → le b c = true → le a c = true

/-- The parsed tuple of a version string (the empty tuple on failure;
only read under a successful-parse hypothesis). -/
def semverTuple (s : String) : List Nat :=
  match parse_semver s with
  | .ok t => t
  | .error _ => []

/-- The rank-independent data of a hierarchy entry. -/
def entryData (e : HierarchyEntry) : Option String × Int × String × String :=
  (e.osm_id, e.level, e.name, e.source)

/-- The corresponding data of an evidence node. -/
def nodeData (n : Node) : Option String × Int × String × String :=
  (n.osm_id, n.level, n.name, n.source)

/-! ## Generic lemmas about the stable sort -/

theorem insertLe_perm {α : Type} (le : α → α → Bool) (x : α) (l : List α) :
    List.Perm (insertLe le x l) (x :: l) := by
  induction l with
  | nil => simp [insertLe]
  | cons y ys ih =>
    simp only [insertLe]
    by_cases h : le y x = true
    · simp only [h, if_true]
      exact (ih.cons y).trans (List.Perm.swap x y ys)
    · simp [h]

theorem foldl_insertLe_perm {α : Type} (le : α → α → Bool) :
    ∀ (l acc : List α),
      List.Perm (l.foldl (fun acc y => insertLe le y acc) acc) (acc ++ l) := by
  intro l
  induction l with
  | nil => intro acc; simp
  | cons x xs ih =>
    intro acc
    have h1 := ih (insertLe le x acc)
    have h2 : List.Perm (insertLe le x acc ++ xs) ((x :: acc) ++ xs) :=
      (insertLe_perm le x acc).append_right xs
    have h3 : List.Perm ((x :: acc) ++ xs) (acc ++ x :: xs) := by
      simpa using List.perm_middle.symm
    simpa using (h1.trans (h2.trans h3))

theorem sortLe_perm {α : Type} (le : α → α → Bool) (l : List α) :
    List.Perm (sortLe le l) l := by
  simpa using foldl_insertLe_perm le l []

theorem mem_insertLe {α : Type} (le : α → α → Bool) (x : α) (l : List α) (z : α) :
    z ∈ insertLe le x l ↔ z = x ∨ z ∈ l := by
  rw [(insertLe_perm le x l).mem_iff]
  simp

theorem insertLe_pairwise {α : Type} (le : α → α → Bool)
    (htot : IsTotalB le) (htr : IsTransB le) (x : α) (l : List α)
    (hl : l.Pairwise (fun a b => le a b = true)) :
    (insertLe le x l).Pairwise (fun a b => le a b = true) := by
  induction l with
  | nil => simp [insertLe]
  | cons y ys ih =>
    rcases List.pairwise_cons.mp hl with ⟨hy, hys⟩
    simp only [insertLe]
    by_cases h : le y x = true
    · simp only [h, if_true]
      refine List.pairwise_cons.mpr ⟨?_, ih hys⟩
      intro z hz
      rcases (mem_insertLe le x ys z).mp hz with rfl | hz
      · exact h
      · exact hy z hz
    · simp only [h, if_false]
      have hxy : le x y = true := (htot x y).resolve_right (by simpa using h)
      refine List.pairwise_cons.mpr ⟨?_, hl⟩
      intro z hz
      rcases hz with _ | hz
      · exact hxy
      · exact htr x y z hxy (hy z (by assumption))

theorem sortLe_pairwise {α : Type} (le : α → α → Bool)
    (htot : IsTotalB le) (htr : IsTransB le) (l : List α) :
    (sortLe le l).Pairwise (fun a b => le a b = true) := by
  have main : ∀ (l acc : List α), acc.Pairwise (fun a b => le a b = true) →
      (l.foldl (fun acc y => insertLe le y acc) acc).Pairwise (fun a b => le a b = true) := by
    intro l
    induction l with
    | nil => intro acc h; simpa using h
    | cons x xs ih =>
      intro acc h
      exact ih (insertLe le x acc) (insertLe_pairwise le htot htr x acc h)
  exact main l [] (by simp)

theorem sorted_perm_unique {α : Type} (le : α → α → Bool)
    (hanti : ∀ a b, le a b = true → le b a = true → a = b)
    (l₁ l₂ : List α) (hp : List.Perm l₁ l₂)
    (h₁ : l₁.Pairwise (fun a b => le a b = true))
    (h₂ : l₂.Pairwise (fun a b => le a b = true)) : l₁ = l₂ :=
  letI : IsAntisymm α (fun a b => le a b = true) := ⟨hanti⟩
  List.eq_of_perm_of_sorted hp h₁ h₂

theorem find?_pairwise_max {α : Type} (R : α → α → Prop) (p : α → Bool) (l : List α)
    (hl : l.Pairwise R) (c : α) (hc : l.find? p = some c) :
    ∀ d ∈ l, p d = true → c = d ∨ R c d := by
  induction l with
  | nil => cases hc
  | cons x xs ih =>
    rcases List.pairwise_cons.mp hl with ⟨hx, hxs⟩
    by_cases hpx : p x = true
    · have hcx : c = x := by
        have := hc
        rw [List.find?_cons_of_pos _ hpx] at this
        exact (Option.some_inj.mp this).symm
      subst hcx
      intro d hd _
      rcases hd with _ | hd
      · exact Or.inl rfl
      · exact Or.inr (hx d (by assumption))
    · have hc' : xs.find? p = some c := by
        have := hc
        rwa [List.find?_cons_of_neg _ (by simpa using hpx)] at this
      intro d hd hpd
      rcases hd with _ | hd
      · exact absurd hpd (by simpa using hpx)
      · exact ih hxs hc' d (by assumption) hpd

theorem insertLe_filter_key {α : Type} (key : α → Int) (x : α) (l : List α)
    (hl : l.Pairwise (fun a b => key a ≤ key b)) (c : Int) :
    (insertLe (fun a b => decide (key a ≤ key b)) x l).filter (fun a => decide (key a = c))
      = l.filter (fun a => decide (key a = c)) ++ (if key x = c then [x] else []) := by
  induction l with
  | nil => by_cases h : key x = c <;> simp [insertLe, h]
  | cons y ys ih =>
    rcases List.pairwise_cons.mp hl with ⟨hy, hys⟩
    simp only [insertLe]
    by_cases h : key y ≤ key x
    · rw [if_pos (by simpa using h)]
      by_cases hyc : key y = c <;>
        simp [List.filter_cons, hyc, ih hys]
    · rw [if_neg (by simpa using h)]
      by_cases hxc : key x = c
      · have hnil : (y :: ys).filter (fun a => decide (key a = c)) = [] := by
          apply List.filter_eq_nil_iff.mpr
          intro z hz
          have hz' : key y ≤ key z := by
            rcases hz with _ | hz
            · exact le_refl _
            · exact hy z (by assumption)
          have : ¬ key z = c := by
            subst hxc
            omega
          simpa using this
        simp [List.filter_cons, hxc, hnil]
      · simp [List.filter_cons, hxc]

theorem sortLe_filter_key {α : Type} (key : α → Int) (l : List α) (c : Int) :
    (sortLe (fun a b => decide (key a ≤ key b)) l).filter (fun a => decide (key a = c))
      = l.filter (fun a => decide (key a = c)) := by
  have htot : IsTotalB (fun a b : α => decide (key a ≤ key b)) := by
    intro a b
    rcases le_total (key a) (key b) with h | h
    · exact Or.inl (by simpa using h)
    · exact Or.inr (by simpa using h)
  have htr : IsTransB (fun a b : α => decide (key a ≤ key b)) := by
    intro a b c hab hbc
    simp only [decide_eq_true_eq] at hab hbc ⊢
    omega
  have main : ∀ (l acc : List α),
      acc.Pairwise (fun a b => key a ≤ key b) →
      (l.foldl (fun acc y => insertLe (fun a b => decide (key a ≤ key b)) y acc) acc).filter
          (fun a => decide (key a = c))
        = acc.filter (fun a => decide (key a = c)) ++ l.filter (fun a => decide (key a = c)) := by
    intro l
    induction l with
    | nil => intro acc _; simp
    | cons x xs ih =>
      intro acc hacc
      have hacc' : (insertLe (fun a b => decide (key a ≤ key b)) x acc).Pairwise
          (fun a b => key a ≤ key b) := by
        have := insertLe_pairwise (fun a b => decide (key a ≤ key b)) htot htr x acc
          (hacc.imp (by intro a b h; simpa using h))
        exact this.imp (by intro a b h; simpa using h)
      rw [List.foldl_cons, ih _ hacc', insertLe_filter_key key x acc hacc c]
      by_cases hxc : key x = c <;> simp [List.filter_cons, hxc]
  simpa using main l [] (by simp)

/-! ## Properties of the embedded total orders -/

theorem natListLt_irrefl : ∀ a : List Nat, natListLt a a = false := by
  intro a
  induction a with
  | nil => rfl
  | cons x xs ih => simp [natListLt, ih]

theorem natListLt_asymm : ∀ a b : List Nat,
    natListLt a b = true → natListLt b a = false := by
  intro a
  induction a with
  | nil =>
    intro b h
    cases b with
    | nil => simpa [natListLt] using h
    | cons y ys => rfl
  | cons x xs ih =>
    intro b h
    cases b with
    | nil => simpa [natListLt] using h
    | cons y ys =>
      simp only [natListLt] at h ⊢
      by_cases hxy : x < y
      · simp [hxy, Nat.lt_asymm hxy, Nat.ne_of_lt hxy]
      · by_cases hyx : y < x
        · simp [hxy, hyx] at h
        · have hxy' : ¬ y < x := hyx
          simp only [if_neg hxy, if_neg hyx] at h
          simp [hyx, hxy, ih ys h]

theorem natListLt_trans : ∀ a b c : List Nat,
    natListLt a b = true → natListLt b c = true → natListLt a c = true := by
  intro a
  induction a with
  | nil =>
    intro b c hab hbc
    cases b with
    | nil => simpa [natListLt] using hab
    | cons y ys =>
      cases c with
      | nil => simpa [natListLt] using hbc
      | cons z zs => rfl
  | cons x xs ih =>
    intro b c hab hbc
    cases b with
    | nil => simpa [natListLt] using hab
    | cons y ys =>
      cases c with
      | nil => simpa [natListLt] using hbc
      | cons z zs =>
        simp only [natListLt] at hab hbc ⊢
        by_cases hxy : x < y <;> by_cases hyz : y < z
        · have : x < z := by omega
          simp [this]
        · by_cases hzy : z < y
          · simp [hxy, hyz, hzy] at hbc
          · have : y = z := by omega
            subst this
            simp [hxy]
        · by_cases hyx : y < x
          · simp [hxy, hyx] at hab
          · have : x = y := by omega
            subst this
            simp [hyz]
        · by_cases hyx : y < x
          · simp [hxy, hyx] at hab
          · by_cases hzy : z < y
            · simp [hyz, hzy] at hbc
            · have hxz : ¬ x < z := by omega
              have hzx : ¬ z < x := by omega
              simp only [if_neg hxy, if_neg hyx] at hab
              simp only [if_neg hyz, if_neg hzy] at hbc
              simp [hxz, hzx, ih ys zs hab hbc]

theorem natListLt_connex : ∀ a b : List Nat,
    natListLt a b = false → natListLt b a = false → a = b := by
  intro a
  induction a with
  | nil =>
    intro b hab _
    cases b with
    | nil => rfl
    | cons y ys => simp [natListLt] at hab
  | cons x xs ih =>
    intro b hab hba
    cases b with
    | nil => simp [natListLt] at hba
    | cons y ys =>
      simp only [natListLt] at hab hba
      by_cases hxy : x < y
      · simp [hxy] at hab
      · by_cases hyx : y < x
        · simp [hyx] at hba
        · have : x = y := by omega
          subst this
          simp only [if_neg hxy, if_neg hyx] at hab hba
          rw [ih ys hab hba]

theorem charListLt_irrefl : ∀ a : List Char, charListLt a a = false := by
  intro a
  induction a with
  | nil => rfl
  | cons x xs ih => simp [charListLt, ih]

theorem charListLt_asymm : ∀ a b : List Char,
    charListLt a b = true → charListLt b a = false := by
  intro a
  induction a with
  | nil =>
    intro b h
    cases b with
    | nil => simpa [charListLt] using h
    | cons y ys => rfl
  | cons x xs ih =>
    intro b h
    cases b with
    | nil => simpa [charListLt] using h
    | cons y ys =>
      simp only [charListLt] at h ⊢
      by_cases hxy : x.toNat < y.toNat
      · have h1 : ¬ y.toNat < x.toNat := by omega
        simp [h1, hxy]
      · by_cases hyx : y.toNat < x.toNat
        · simp [hxy, hyx] at h
        · simp only [if_neg hxy, if_neg hyx] at h
          simp [hyx, hxy, ih ys h]

theorem charListLt_trans : ∀ a b c : List Char,
    charListLt a b = true → charListLt b c = true → charListLt a c = true := by
  intro a
  induction a with
  | nil =>
    intro b c hab hbc
    cases b with
    | nil => simpa [charListLt] using hab
    | cons y ys =>
      cases c with
      | nil => simpa [charListLt] using hbc
      | cons z zs => rfl
  | cons x xs ih =>
    intro b c hab hbc
    cases b with
    | nil => simpa [charListLt] using hab
    | cons y ys =>
      cases c with
      | nil => simpa [charListLt] using hbc
      | cons z zs =>
        simp only [charListLt] at hab hbc ⊢
        by_cases hxy : x.toNat < y.toNat <;> by_cases hyz : y.toNat < z.toNat
        · have : x.toNat < z.toNat := by omega
          simp [this]
        · by_cases hzy : z.toNat < y.toNat
          · simp [hxy, hyz, hzy] at hbc
          · have : x.toNat < z.toNat := by omega
            simp [this]
        · by_cases hyx : y.toNat < x.toNat
          · simp [hxy, hyx] at hab
          · have : x.toNat < z.toNat := by omega
            simp [this]
        · by_cases hyx : y.toNat < x.toNat
          · simp [hxy, hyx] at hab
          · by_cases hzy : z.toNat < y.toNat
            · simp [hyz, hzy] at hbc
            · have hxz : ¬ x.toNat < z.toNat := by omega
              have hzx : ¬ z.toNat < x.toNat := by omega
              simp only [if_neg hxy, if_neg hyx] at hab
              simp only [if_neg hyz, if_neg hzy] at hbc
              simp [hxz, hzx, ih ys zs hab hbc]

theorem charListLt_connex : ∀ a b : List Char,
    charListLt a b = false → charListLt b a = false → a = b := by
  intro a
  induction a with
  | nil =>
    intro b hab _
    cases b with
    | nil => rfl
    | cons y ys => simp [charListLt] at hab
  | cons x xs ih =>
    intro b hab hba
    cases b with
    | nil => simp [charListLt] at hba
    | cons y ys =>
      simp only [charListLt] at hab hba
      by_cases hxy : x.toNat < y.toNat
      · simp [hxy] at hab
      · by_cases hyx : y.toNat < x.toNat
        · simp [hyx] at hba
        · have hxyn : x.toNat = y.toNat := by omega
          have hxy' : x = y := by
            apply Char.eq_of_val_eq
            apply UInt32.toNat.inj
            exact hxyn
          subst hxy'
          simp only [if_neg hxy, if_neg hyx] at hab hba
          rw [ih ys hab hba]

theorem strLeB_total : IsTotalB strLeB := by
  intro a b
  unfold strLeB
  by_cases h : charListLt b.data a.data = true
  · right
    simp [charListLt_asymm _ _ h]
  · left
    simp [Bool.eq_false_iff.mpr h]

theorem strLeB_trans : IsTransB strLeB := by
  intro a b c hab hbc
  unfold strLeB at hab hbc ⊢
  simp only [Bool.not_eq_true'] at hab hbc ⊢
  by_cases h : charListLt c.data a.data = true
  · exfalso
    by_cases hbc2 : charListLt b.data c.data = true
    · have := charListLt_trans _ _ _ hbc2 h
      rw [hab] at this
      exact Bool.false_ne_true this
    · have heq : b.data = c.data :=
        charListLt_connex _ _ (Bool.eq_false_iff.mpr hbc2) hbc
      rw [← heq, hab] at h
      exact Bool.false_ne_true h
  · exact Bool.eq_false_iff.mpr h

theorem strLeB_antisymm : ∀ a b : String,
    strLeB a b = true → strLeB b a = true → a = b := by
  intro a b hab hba
  unfold strLeB at hab hba
  simp only [Bool.not_eq_true'] at hab hba
  have h : a.data = b.data := charListLt_connex _ _ hba hab
  cases a
  cases b
  exact congrArg String.mk h

/-! ## C9: quantization is total and in range -/

/-- C9: for every input value, minimum and span, `_quantize` returns an
integer in the closed range [0, 65535], and it returns 0 whenever the
span equals 0 (degenerate part bounding box). -/
theorem quantize_range (value min_value span : ℚ) :
    (0 ≤ quantize value min_value span ∧ quantize value min_value span ≤ 65535)
    ∧ (span = 0 → quantize value min_value span = 0) := by
  unfold quantize
  by_cases hs : span = 0
  · simp [hs]
  · simp only [if_neg hs]
    refine ⟨?_, fun h => absurd h hs⟩
    by_cases h0 : (value - min_value) / span * 65535 ≤ 0
    · simp [h0]
    · simp only [if_neg h0]
      by_cases h1 : (65535 : ℚ) ≤ (value - min_value) / span * 65535
      · simp [h1]
      · simp only [if_neg h1]
        unfold round_half_up
        push_neg at h0 h1
        constructor
        · apply Int.le_floor.mpr
          push_cast
          linarith
        · have hlt : (value - min_value) / span * 65535 + 1 / 2 < ((65536 : Int) : ℚ) := by
            push_cast
            linarith
          have := Int.floor_lt.mpr hlt
          omega

/-- Witness for C9 at a degenerate span. -/
theorem quantize_range_witness :
    quantize 7 1 0 = 0 ∧ 0 ≤ quantize 7 1 0 ∧ quantize 7 1 0 ≤ 65535 :=
  ⟨(quantize_range 7 1 0).2 rfl, (quantize_range 7 1 0).1.1, (quantize_range 7 1 0).1.2⟩

/-! ## C1: the safe-tar containment check -/

/-- C1: the claim demands that extraction fail whenever a member's
resolved destination does not lie inside the target directory, but the
source compares flat path strings with str.startswith.  With target
/tmp/target, the member name ../target_evil/f resolves to
/tmp/target_evil/f, which starts with the string /tmp/target: the check
passes, extraction proceeds, and the member lands outside the target
directory. -/
theorem safe_extract_startswith_escape :
    safe_extract_tar_gz ["tmp", "target"] [⟨false, ["..", "target_evil", "f"]⟩]
      = .ok [["tmp", "target_evil", "f"]]
    ∧ insideTarget (resolveComps [] ["tmp", "target"]) ["tmp", "target_evil", "f"] = false := by
  constructor
  · rfl
  · decide

/-! ## C6: runtime-compatibility validation -/

theorem parse_semver_blank (s : String)
    (h : (pyStripChars s.data).isEmpty = true) : (parse_semver s).isOk = false := by
  have hempty : pyStripChars s.data = [] := by
    cases hc : pyStripChars s.data
    · rfl
    · rw [hc] at h
      simp at h
  simp [parse_semver, hempty, pySplitDot, splitDotGo, pyIsDigits]
  rfl

/-- C6: runtime-compatibility validation succeeds exactly when all three
version strings are semver-like, the parsed min is lexicographically
below the parsed max_exclusive, and the parsed runtime version lies in
[min, max_exclusive); on success it returns the (stripped) min and
max_exclusive strings.  In every other case it raises. -/
theorem validate_manifest_runtime_compatibility_spec
    (minS maxS rtS : String) (p : String × String) :
    validate_manifest_runtime_compatibility minS maxS rtS = .ok p
      ↔ ((parse_semver rtS).isOk = true ∧ (parse_semver minS).isOk = true
         ∧ (parse_semver maxS).isOk = true
         ∧ natListLt (semverTuple minS) (semverTuple maxS) = true
         ∧ natListLt (semverTuple rtS) (semverTuple minS) = false
         ∧ natListLt (semverTuple rtS) (semverTuple maxS) = true
         ∧ p = (pyStrip minS, pyStrip maxS)) := by
  unfold validate_manifest_runtime_compatibility
  by_cases hmin : (pyStripChars minS.data).isEmpty = true
  · simp [hmin, parse_semver_blank minS hmin]
  · by_cases hmax : (pyStripChars maxS.data).isEmpty = true
    · simp [hmin, hmax, parse_semver_blank maxS hmax]
    · rw [if_neg (by simpa using hmin), if_neg (by simpa using hmax)]
      rcases hrt : parse_semver rtS with e | rt
      · simp [Except.isOk, Except.toBool]
      · rcases hmn : parse_semver minS with e | mn
        · simp [Except.isOk, Except.toBool]
        · rcases hmx : parse_semver maxS with e | mx
          · simp [Except.isOk, Except.toBool]
          · simp only [semverTuple, hrt, hmn, hmx, Except.isOk, Except.toBool]
            by_cases h1 : natListLt mn mx = true
            · by_cases h2 : natListLt rt mn = true
              · simp [h1, h2]
              · by_cases h3 : natListLt rt mx = true
                · simp [h1, h2, h3, eq_comm]
                · simp [h1, h2, h3]
            · simp [h1]

/-- Witness for C6: a concrete in-range configuration succeeds and
returns the stripped bounds. -/
theorem validate_manifest_runtime_compatibility_witness :
    validate_manifest_runtime_compatibility "1.0.0" "2.0.0" "v1.5.0"
      = .ok ("1.0.0", "2.0.0") := by
  apply (validate_manifest_runtime_compatibility_spec "1.0.0" "2.0.0" "v1.5.0"
    ("1.0.0", "2.0.0")).mpr
  refine ⟨by decide, by decide, by decide, by decide, by decide, by decide, by decide⟩

/-! ## Pipeline structural lemmas -/

theorem assignRankGo_length : ∀ (l : List Node) (s : Nat),
    (assignRankGo s l).length = l.length := by
  intro l
  induction l with
  | nil => intro s; rfl
  | cons n rest ih => intro s; simp [assignRankGo, ih]

theorem assignRankGo_get : ∀ (l : List Node) (s i : Nat)
    (h : i < (assignRankGo s l).length) (hl : i < l.length),
    (assignRankGo s l).get ⟨i, h⟩ = (s + i, l.get ⟨i, hl⟩) := by
  intro l
  induction l with
  | nil => intro s i h hl; cases hl
  | cons n rest ih =>
    intro s i h hl
    cases i with
    | zero => simp [assignRankGo]
    | succ i =>
      have h' : i < (assignRankGo (s + 1) rest).length := by
        simpa [assignRankGo] using Nat.lt_of_succ_lt_succ (by simpa [assignRankGo] using h)
      have hl' : i < rest.length := Nat.lt_of_succ_lt_succ hl
      have := ih (s + 1) i h' hl'
      simp only [assignRankGo, List.get_cons_succ]
      rw [this]
      congr 1
      omega

theorem assignRankGo_filter_map {γ : Type} (q : Node → Bool) (g : Node → γ) :
    ∀ (l : List Node) (s : Nat),
      ((assignRankGo s l).filter (fun p => q p.2)).map (fun p => g p.2)
        = (l.filter q).map g := by
  intro l
  induction l with
  | nil => intro s; rfl
  | cons n rest ih =>
    intro s
    by_cases hq : q n = true <;>
      simp [assignRankGo, List.filter_cons, hq, ih (s + 1)]

theorem mem_assignRankGo : ∀ (l : List Node) (s : Nat) (p : Nat × Node),
    p ∈ assignRankGo s l → p.2 ∈ l := by
  intro l
  induction l with
  | nil => intro s p h; cases h
  | cons n rest ih =>
    intro s p h
    rcases h with _ | h
    · exact List.mem_cons_self _ _
    · exact List.mem_cons_of_mem _ (ih (s + 1) p (by assumption))

theorem assignRankGo_pairwise (R : Node → Node → Prop) :
    ∀ (l : List Node) (s : Nat), l.Pairwise R →
      (assignRankGo s l).Pairwise (fun p q => R p.2 q.2) := by
  intro l
  induction l with
  | nil => intro s _; exact List.Pairwise.nil
  | cons n rest ih =>
    intro s h
    rcases List.pairwise_cons.mp h with ⟨hn, hrest⟩
    refine List.pairwise_cons.mpr ⟨?_, ih (s + 1) hrest⟩
    intro q hq
    exact hn q.2 (mem_assignRankGo rest (s + 1) q hq)

theorem sort_by_level_pairwise (nodes : List Node) :
    (sort_by_level nodes).Pairwise (fun a b => a.level ≤ b.level) := by
  have htot : IsTotalB (fun a b : Node => decide (a.level ≤ b.level)) := by
    intro a b
    rcases le_total a.level b.level with h | h
    · exact Or.inl (by simpa using h)
    · exact Or.inr (by simpa using h)
  have htr : IsTransB (fun a b : Node => decide (a.level ≤ b.level)) := by
    intro a b c hab hbc
    simp only [decide_eq_true_eq] at hab hbc ⊢
    omega
  have := sortLe_pairwise _ htot htr nodes
  exact this.imp (by intro a b h; simpa using h)

theorem sort_by_level_filter (nodes : List Node) (c : Int) :
    (sort_by_level nodes).filter (fun n => decide (n.level = c))
      = nodes.filter (fun n => decide (n.level = c)) :=
  sortLe_filter_key Node.level nodes c

theorem sort_by_level_perm (nodes : List Node) :
    List.Perm (sort_by_level nodes) nodes :=
  sortLe_perm _ nodes

/-! ## C4: hierarchy ordering, rank density, stability -/

/-- C4: in every assembled result bundle, admin_hierarchy is ascending by
level; the rank of the i-th entry is i; and for each level the entries at
that level are exactly the input nodes at that level in their original
(insertion) order, i.e. the sort is stable. -/
theorem assemble_result_hierarchy_spec (nodes : List Node)
    (status engine version country_name : String) (rs ca : Option String) :
    (∀ i j (hi : i < (assemble_result nodes status engine version country_name rs ca).admin_hierarchy.length)
        (hj : j < (assemble_result nodes status engine version country_name rs ca).admin_hierarchy.length),
        i ≤ j →
        ((assemble_result nodes status engine version country_name rs ca).admin_hierarchy.get ⟨i, hi⟩).level
          ≤ ((assemble_result nodes status engine version country_name rs ca).admin_hierarchy.get ⟨j, hj⟩).level)
    ∧ (∀ i (hi : i < (assemble_result nodes status engine version country_name rs ca).admin_hierarchy.length),
        ((assemble_result nodes status engine version country_name rs ca).admin_hierarchy.get ⟨i, hi⟩).rank = i)
    ∧ (∀ c : Int,
        ((assemble_result nodes status engine version country_name rs ca).admin_hierarchy.filter
            (fun e => decide (e.level = c))).map entryData
          = (nodes.filter (fun n => decide (n.level = c))).map nodeData) := by
  have hrepr : (assemble_result nodes status engine version country_name rs ca).admin_hierarchy
      = (assignRankGo 0 (sort_by_level nodes)).map (fun p =>
          { rank := p.1, osm_id := p.2.osm_id, level := p.2.level,
            name := p.2.name, source := p.2.source : HierarchyEntry }) := rfl
  refine ⟨?_, ?_, ?_⟩
  · intro i j hi hj hij
    rcases Nat.eq_or_lt_of_le hij with rfl | hlt
    · exact le_refl _
    · have hpw : ((assignRankGo 0 (sort_by_level nodes)).map (fun p =>
          { rank := p.1, osm_id := p.2.osm_id, level := p.2.level,
            name := p.2.name, source := p.2.source : HierarchyEntry })).Pairwise
          (fun a b => a.level ≤ b.level) := by
        apply List.Pairwise.map
        · intro a b h
          exact h
        · exact assignRankGo_pairwise _ _ 0 (sort_by_level_pairwise nodes)
      rw [hrepr] at hi hj
      exact List.pairwise_iff_get.mp hpw ⟨i, hi⟩ ⟨j, hj⟩ hlt
  · intro i hi
    rw [hrepr] at hi
    have hlen1 : i < (assignRankGo 0 (sort_by_level nodes)).length := by
      simpa using hi
    have hlen2 : i < (sort_by_level nodes).length := by
      rw [assignRankGo_length] at hlen1
      exact hlen1
    have hget := assignRankGo_get (sort_by_level nodes) 0 i hlen1 hlen2
    show ((List.map (fun p : Nat × Node =>
        { rank := p.1, osm_id := p.2.osm_id, level := p.2.level,
          name := p.2.name, source := p.2.source : HierarchyEntry })
        (assignRankGo 0 (sort_by_level nodes))).get ⟨i, hi⟩).rank = i
    rw [List.get_map, hget]
    simp
  · intro c
    rw [hrepr, List.filter_map, List.map_map]
    have h1 : (fun e : HierarchyEntry => decide (e.level = c)) ∘ (fun p : Nat × Node =>
        { rank := p.1, osm_id := p.2.osm_id, level := p.2.level,
          name := p.2.name, source := p.2.source : HierarchyEntry })
        = fun p : Nat × Node => decide (p.2.level = c) := rfl
    have h2 : entryData ∘ (fun p : Nat × Node =>
        { rank := p.1, osm_id := p.2.osm_id, level := p.2.level,
          name := p.2.name, source := p.2.source : HierarchyEntry })
        = fun p : Nat × Node => nodeData p.2 := rfl
    rw [h1, h2, assignRankGo_filter_map (fun n => decide (n.level = c)) nodeData,
      sort_by_level_filter]

/-- Witness for C4 at a concrete two-node input (levels out of order on
input; the assembled hierarchy is sorted with dense ranks and per-level
stability). -/
theorem assemble_result_hierarchy_spec_witness :
    ((assemble_result
        [{ level := 6, name := "b", osm_id := some "B", source := "polygon", evidence_type := "geometry" },
         { level := 4, name := "a", osm_id := some "A", source := "polygon", evidence_type := "geometry" }]
        "ok" "cadis" "1" "Japan" none none).admin_hierarchy.get
        ⟨0, by decide⟩).level
      ≤ ((assemble_result
        [{ level := 6, name := "b", osm_id := some "B", source := "polygon", evidence_type := "geometry" },
         { level := 4, name := "a", osm_id := some "A", source := "polygon", evidence_type := "geometry" }]
        "ok" "cadis" "1" "Japan" none none).admin_hierarchy.get
        ⟨1, by decide⟩).level
    ∧ ((assemble_result
        [{ level := 6, name := "b", osm_id := some "B", source := "polygon", evidence_type := "geometry" },
         { level := 4, name := "a", osm_id := some "A", source := "polygon", evidence_type := "geometry" }]
        "ok" "cadis" "1" "Japan" none none).admin_hierarchy.get
        ⟨1, by decide⟩).rank = 1 := by
  constructor
  · exact (assemble_result_hierarchy_spec _ "ok" "cadis" "1" "Japan" none none).1
      0 1 (by decide) (by decide) (by omega)
  · exact (assemble_result_hierarchy_spec _ "ok" "cadis" "1" "Japan" none none).2.1
      1 (by decide)

/-! ## C3: failed status empties the hierarchy -/

/-- C3: for every bundle produced by the pipeline, if its lookup_status
is "failed" then its admin_hierarchy is the empty list (the pipeline
drops every node before assembling a failed result). -/
theorem pipeline_failed_empty_hierarchy (polygon_hits : List (Int × RawNode))
    (allowed_levels : List Int) (allowed_shapes : List (List Int))
    (engine version country_name : String)
    (hierarchy_provider repair_provider : Option Provider)
    (status_evaluator : Option (List Node → String))
    (shape_status_map : List (List Int × String)) (rs ca : Option String) :
    (run_v2_shadow_pipeline polygon_hits allowed_levels allowed_shapes engine version
        country_name hierarchy_provider repair_provider status_evaluator shape_status_map
        rs ca).public.lookup_status = "failed" →
    (run_v2_shadow_pipeline polygon_hits allowed_levels allowed_shapes engine version
        country_name hierarchy_provider repair_provider status_evaluator shape_status_map
        rs ca).public.admin_hierarchy = [] := by
  intro h
  unfold run_v2_shadow_pipeline at h ⊢
  simp only [assemble_result, build_base_result] at h ⊢
  rw [h]
  simp [sort_by_level, sortLe, assign_rank, assignRankGo]

/-- Witness for C3: a lookup with no polygon hits fails and carries an
empty hierarchy. -/
theorem pipeline_failed_empty_hierarchy_witness :
    (run_v2_shadow_pipeline [] [4] [[4]] "cadis" "1" "Japan" none none none []
        none none).public.lookup_status = "failed"
    ∧ (run_v2_shadow_pipeline [] [4] [[4]] "cadis" "1" "Japan" none none none []
        none none).public.admin_hierarchy = [] := by
  constructor
  · decide
  · exact pipeline_failed_empty_hierarchy [] [4] [[4]] "cadis" "1" "Japan" none none none []
      none none (by decide)

/-! ## C2: shape membership iff status not failed -/

theorem mem_dedupInts_aux (l : List Int) :
    ∀ (acc : List Int) (y : Int),
      (y ∈ l.foldl (fun acc x => if x ∈ acc then acc else acc ++ [x]) acc
        ↔ y ∈ acc ∨ y ∈ l) := by
  induction l with
  | nil => intro acc y; simp
  | cons x xs ih =>
    intro acc y
    by_cases hx : x ∈ acc
    · rw [List.foldl_cons, if_pos hx, ih]
      constructor
      · rintro (h | h)
        · exact Or.inl h
        · exact Or.inr (List.mem_cons_of_mem _ h)
      · rintro (h | h)
        · exact Or.inl h
        · rcases h with _ | h
          · exact Or.inl hx
          · exact Or.inr (by assumption)
    · rw [List.foldl_cons, if_neg hx, ih]
      constructor
      · rintro (h | h)
        · rcases List.mem_append.mp h with h | h
          · exact Or.inl h
          · simp at h
            subst h
            exact Or.inr (List.mem_cons_self _ _)
        · exact Or.inr (List.mem_cons_of_mem _ h)
      · rintro (h | h)
        · exact Or.inl (List.mem_append.mpr (Or.inl h))
        · rcases h with _ | h
          · exact Or.inl (List.mem_append.mpr (Or.inr (by simp)))
          · exact Or.inr (by assumption)

theorem mem_dedupInts (l : List Int) (y : Int) : y ∈ dedupInts l ↔ y ∈ l := by
  unfold dedupInts
  rw [mem_dedupInts_aux l [] y]
  simp

theorem dedupInts_nodup (l : List Int) : (dedupInts l).Nodup := by
  have main : ∀ (l acc : List Int), acc.Nodup →
      (l.foldl (fun acc x => if x ∈ acc then acc else acc ++ [x]) acc).Nodup := by
    intro l
    induction l with
    | nil => intro acc h; simpa using h
    | cons x xs ih =>
      intro acc h
      by_cases hx : x ∈ acc
      · rw [List.foldl_cons, if_pos hx]
        exact ih acc h
      · rw [List.foldl_cons, if_neg hx]
        apply ih
        rw [List.nodup_append]
        refine ⟨h, List.nodup_singleton x, ?_⟩
        intro a ha hax
        simp only [List.mem_singleton] at hax
        subst hax
        exact hx ha
  exact main l [] List.nodup_nil

theorem sortInts_pairwise (l : List Int) :
    (sortInts l).Pairwise (fun a b => decide (a ≤ b) = true) := by
  apply sortLe_pairwise
  · intro a b
    rcases le_total a b with h | h
    · exact Or.inl (by simpa using h)
    · exact Or.inr (by simpa using h)
  · intro a b c hab hbc
    simp only [decide_eq_true_eq] at hab hbc ⊢
    omega

theorem sortedDedupInts_perm_invariant (l₁ l₂ : List Int) (h : List.Perm l₁ l₂) :
    sortedDedupInts l₁ = sortedDedupInts l₂ := by
  apply sorted_perm_unique (fun a b : Int => decide (a ≤ b))
  · intro a b hab hba
    simp only [decide_eq_true_eq] at hab hba
    omega
  · have hdedup : List.Perm (dedupInts l₁) (dedupInts l₂) := by
      apply (List.perm_ext_iff_of_nodup (dedupInts_nodup l₁) (dedupInts_nodup l₂)).mpr
      intro a
      rw [mem_dedupInts, mem_dedupInts, h.mem_iff]
    exact (sortLe_perm _ _).trans (hdedup.trans (sortLe_perm _ _).symm)
  · exact sortInts_pairwise _
  · exact sortInts_pairwise _

theorem assignRankGo_map_snd : ∀ (l : List Node) (s : Nat),
    (assignRankGo s l).map Prod.snd = l := by
  intro l
  induction l with
  | nil => intro s; rfl
  | cons n rest ih => intro s; simp [assignRankGo, ih (s + 1)]

theorem assemble_result_levels (nodes : List Node)
    (status engine version country_name : String) (rs ca : Option String) :
    (assemble_result nodes status engine version country_name rs ca).admin_hierarchy.map
        HierarchyEntry.level
      = (sort_by_level nodes).map Node.level := by
  show ((assignRankGo 0 (sort_by_level nodes)).map (fun p : Nat × Node =>
      { rank := p.1, osm_id := p.2.osm_id, level := p.2.level,
        name := p.2.name, source := p.2.source : HierarchyEntry })).map HierarchyEntry.level
    = (sort_by_level nodes).map Node.level
  rw [List.map_map]
  have : (HierarchyEntry.level ∘ fun p : Nat × Node =>
      { rank := p.1, osm_id := p.2.osm_id, level := p.2.level,
        name := p.2.name, source := p.2.source : HierarchyEntry })
      = Node.level ∘ Prod.snd := rfl
  rw [this, ← List.map_map, assignRankGo_map_snd]

theorem eval_status_assemble_iff (nodes : List Node)
    (shapes : List (List Int)) (ssm : List (List Int × String))
    (engine version country_name : String) (rs ca : Option String)
    (hshapes : ∀ s ∈ shapes, s ≠ []) :
    (sortedDedupInts ((assemble_result
          (if evaluate_lookup_status nodes shapes ssm ≠ "failed" then nodes else [])
          (evaluate_lookup_status nodes shapes ssm) engine version country_name rs
          ca).admin_hierarchy.map HierarchyEntry.level) ∈ shapes
      ↔ (assemble_result
          (if evaluate_lookup_status nodes shapes ssm ≠ "failed" then nodes else [])
          (evaluate_lookup_status nodes shapes ssm) engine version country_name rs
          ca).lookup_status ≠ "failed") := by
  have hstatus : (assemble_result
      (if evaluate_lookup_status nodes shapes ssm ≠ "failed" then nodes else [])
      (evaluate_lookup_status nodes shapes ssm) engine version country_name rs
      ca).lookup_status = evaluate_lookup_status nodes shapes ssm := rfl
  rw [hstatus, assemble_result_levels]
  by_cases hf : evaluate_lookup_status nodes shapes ssm = "failed"
  · rw [hf, if_neg (by simp)]
    apply iff_of_false
    · intro hmem
      have : sortedDedupInts ((sort_by_level []).map Node.level) = [] := rfl
      rw [this] at hmem
      exact hshapes [] hmem rfl
    · simp
  · rw [if_pos hf]
    apply iff_of_true _ hf
    have hperm : List.Perm ((sort_by_level nodes).map Node.level) (nodes.map Node.level) :=
      (sort_by_level_perm nodes).map Node.level
    rw [sortedDedupInts_perm_invariant _ _ hperm]
    unfold evaluate_lookup_status at hf
    by_cases hne : nodes.isEmpty = true
    · rw [if_pos hne] at hf
      exact absurd rfl hf
    · rw [if_neg hne] at hf
      by_cases hmem : sortedDedupInts (nodes.map Node.level) ∈ shapes
      · exact hmem
      · rw [if_pos (by simpa using hmem)] at hf
        exact absurd rfl hf

/-- C2: for every bundle produced by the runtime pipeline (which installs
`evaluate_lookup_status` as the status evaluator), the set of node levels
of admin_hierarchy is an element of allowed_shapes iff lookup_status is
not "failed".  The hypothesis that allowed shapes are non-empty is
guaranteed by the policy loader (allowed_shapes entries must be non-empty
integer lists). -/
theorem pipeline_shape_iff_not_failed (polygon_hits : List (Int × RawNode))
    (allowed_levels : List Int) (allowed_shapes : List (List Int))
    (engine version country_name : String)
    (hierarchy_provider repair_provider : Option Provider)
    (shape_status_map : List (List Int × String)) (rs ca : Option String)
    (hshapes : ∀ s ∈ allowed_shapes, s ≠ []) :
    (sortedDedupInts ((run_v2_shadow_pipeline polygon_hits allowed_levels allowed_shapes
          engine version country_name hierarchy_provider repair_provider
          (some (fun ns => evaluate_lookup_status ns allowed_shapes shape_status_map))
          shape_status_map rs ca).public.admin_hierarchy.map HierarchyEntry.level)
        ∈ allowed_shapes
      ↔ (run_v2_shadow_pipeline polygon_hits allowed_levels allowed_shapes
          engine version country_name hierarchy_provider repair_provider
          (some (fun ns => evaluate_lookup_status ns allowed_shapes shape_status_map))
          shape_status_map rs ca).public.lookup_status ≠ "failed") :=
  eval_status_assemble_iff
    (deduplicate (sort_by_level (filter_allowed_levels
      (collect_nodes (merge_evidence_in_priority_order
        [collect_geometry_evidence polygon_hits,
         supplement_from_hierarchy (collect_geometry_evidence polygon_hits)
           allowed_levels hierarchy_provider,
         supplement_from_repair_dataset
           (merge_evidence_in_priority_order
             [collect_geometry_evidence polygon_hits,
              supplement_from_hierarchy (collect_geometry_evidence polygon_hits)
                allowed_levels hierarchy_provider])
           allowed_levels repair_provider]))
      allowed_levels)))
    allowed_shapes shape_status_map engine version country_name rs ca hshapes

/-- Witness for C2 at a concrete successful lookup. -/
theorem pipeline_shape_iff_not_failed_witness :
    (∀ s ∈ [[(4 : Int)]], s ≠ [])
    ∧ (sortedDedupInts ((run_v2_shadow_pipeline
          [(4, { level := some 4, name := "X", osm_id := some "R1", source := none })]
          [4] [[4]] "cadis" "1" "Japan" none none
          (some (fun ns => evaluate_lookup_status ns [[4]] [([4], "ok")]))
          [([4], "ok")] none none).public.admin_hierarchy.map HierarchyEntry.level)
        ∈ [[(4 : Int)]]
      ↔ (run_v2_shadow_pipeline
          [(4, { level := some 4, name := "X", osm_id := some "R1", source := none })]
          [4] [[4]] "cadis" "1" "Japan" none none
          (some (fun ns => evaluate_lookup_status ns [[4]] [([4], "ok")]))
          [([4], "ok")] none none).public.lookup_status ≠ "failed") :=
  ⟨by decide,
   pipeline_shape_iff_not_failed
     [(4, { level := some 4, name := "X", osm_id := some "R1", source := none })]
     [4] [[4]] "cadis" "1" "Japan" none none [([4], "ok")] none none (by decide)⟩

/-! ## C5: bundle checksum -/

set_option maxRecDepth 200000 in
/-- Validation of the SHA-256 embedding against the standard test vector
for the empty message. -/
theorem sha256Bytes_test_vector_empty :
    bytesToHex (sha256Bytes [])
      = "e3b0c44298fc1c149afbf4c8996fb92427ae41e4649b934ca495991b7852b855" := by
  decide

set_option maxRecDepth 200000 in
/-- Validation of the SHA-256 embedding against the standard test vector
for the three-byte message abc. -/
theorem sha256Bytes_test_vector_abc :
    bytesToHex (sha256Bytes [97, 98, 99])
      = "ba7816bf8f01cfea414140de5dae2223b00361a396177a9cb410ff61f20015ad" := by
  decide

theorem lookupS_perm {β : Type} (m₁ m₂ : List (String × β)) (h : List.Perm m₁ m₂)
    (hnd : (m₁.map Prod.fst).Nodup) (k : String) : lookupS m₁ k = lookupS m₂ k := by
  induction h with
  | nil => rfl
  | cons x h ih =>
    simp only [lookupS]
    by_cases hk : x.1 = k
    · simp [hk]
    · simp only [if_neg hk]
      exact ih (by simpa using (List.nodup_cons.mp (by simpa using hnd)).2)
  | swap x y t =>
    simp only [lookupS]
    by_cases hy : y.1 = k <;> by_cases hx : x.1 = k
    · exfalso
      have hne : y.1 ≠ x.1 := by
        have := hnd
        simp only [List.map_cons, List.nodup_cons] at this
        intro he
        exact this.1 (by simp [he])
      exact hne (hy.trans hx.symm)
    · simp [hy, hx]
    · simp [hy, hx]
    · simp [hy, hx]
  | trans h1 h2 ih1 ih2 =>
    rw [ih1 hnd, ih2 ((h1.map Prod.fst).nodup_iff.mp hnd)]

theorem foldl_bundle_congr (f g : String → Option String) (hfg : ∀ k, f k = g k) :
    ∀ (ks : List String) (acc : List Nat),
      ks.foldl (fun acc k => acc ++ utf8Str k ++ [0] ++ utf8Str ((f k).getD "") ++ [0]) acc
        = ks.foldl (fun acc k => acc ++ utf8Str k ++ [0] ++ utf8Str ((g k).getD "") ++ [0]) acc := by
  intro ks
  induction ks with
  | nil => intro acc; rfl
  | cons k rest ih =>
    intro acc
    simp only [List.foldl_cons, hfg k]
    exact ih _

/-- C5: `bundle_checksum_from_files` is the SHA-256, rendered as a
lowercase hex digest, of the byte stream that concatenates, for each key
of the map taken in lexicographic order (`ks` is any lexicographically
sorted enumeration of the keys), key, NUL, value, NUL, all UTF-8 encoded;
consequently the result is invariant under any permutation of the map's
key insertion order. -/
theorem bundle_checksum_spec (m₁ m₂ : List (String × String)) (ks : List String)
    (hnd : (m₁.map Prod.fst).Nodup)
    (hperm : List.Perm m₂ m₁)
    (hks : List.Perm ks (m₁.map Prod.fst))
    (hsorted : ks.Pairwise (fun a b => strLeB a b = true)) :
    bundle_checksum_from_files m₁
        = bytesToHex (sha256Bytes (ks.foldl
            (fun acc k => acc ++ utf8Str k ++ [0] ++ utf8Str ((lookupS m₁ k).getD "") ++ [0]) []))
    ∧ bundle_checksum_from_files m₂ = bundle_checksum_from_files m₁ := by
  have hsortPW := sortLe_pairwise strLeB strLeB_total strLeB_trans
  constructor
  · have h1 : sortLe strLeB (m₁.map Prod.fst) = ks :=
      sorted_perm_unique strLeB strLeB_antisymm _ _
        ((sortLe_perm _ _).trans hks.symm) (hsortPW _) hsorted
    unfold bundle_checksum_from_files bundleUpdates
    rw [h1]
  · have hkperm : List.Perm (m₂.map Prod.fst) (m₁.map Prod.fst) := hperm.map _
    have hnd₂ : (m₂.map Prod.fst).Nodup := hkperm.nodup_iff.mpr hnd
    have hsort : sortLe strLeB (m₂.map Prod.fst) = sortLe strLeB (m₁.map Prod.fst) :=
      sorted_perm_unique strLeB strLeB_antisymm _ _
        ((sortLe_perm _ _).trans (hkperm.trans (sortLe_perm _ _).symm))
        (hsortPW _) (hsortPW _)
    unfold bundle_checksum_from_files bundleUpdates
    rw [hsort]
    rw [foldl_bundle_congr (lookupS m₂) (lookupS m₁)
      (fun k => lookupS_perm m₂ m₁ hperm hnd₂ k)]

/-- Witness for C5 at a concrete two-entry map and its transposed
insertion order. -/
theorem bundle_checksum_spec_witness :
    bundle_checksum_from_files [("b", "2"), ("a", "1")]
        = bytesToHex (sha256Bytes (["a", "b"].foldl
            (fun acc k => acc ++ utf8Str k ++ [0]
              ++ utf8Str ((lookupS [("b", "2"), ("a", "1")] k).getD "") ++ [0]) []))
    ∧ bundle_checksum_from_files [("a", "1"), ("b", "2")]
        = bundle_checksum_from_files [("b", "2"), ("a", "1")] :=
  bundle_checksum_spec [("b", "2"), ("a", "1")] [("a", "1"), ("b", "2")] ["a", "b"]
    (by decide) (by decide) (by decide) (by decide)

/-! ## C7: boundary points and query_point -/

theorem quantize_unit_box (v : ℚ) (n : Int) (hv : v = (n : ℚ))
    (h0 : 0 ≤ n) (h64 : n ≤ 65535) : quantize v 0 65535 = n := by
  subst hv
  unfold quantize
  rw [if_neg (by norm_num)]
  have hs : ((n : ℚ) - 0) / 65535 * 65535 = (n : ℚ) := by
    field_simp
  simp only [hs]
  by_cases hz : (n : ℚ) ≤ 0
  · rw [if_pos hz]
    have hn0 : n = 0 := by
      have : n ≤ 0 := by exact_mod_cast hz
      omega
    omega
  · rw [if_neg hz]
    by_cases hm : (65535 : ℚ) ≤ (n : ℚ)
    · rw [if_pos hm]
      have : (65535 : Int) ≤ n := by exact_mod_cast hm
      omega
    · rw [if_neg hm]
      unfold round_half_up
      rw [Int.floor_eq_iff]
      constructor
      · push_cast
        linarith
      · push_cast
        linarith

theorem pointInRingLoop_on_edge (qx qy : Int) :
    ∀ (edges : List ((Int × Int) × (Int × Int))) (inside : Bool),
      (∃ e ∈ edges, point_on_segment qx qy e.1.1 e.1.2 e.2.1 e.2.2 = true) →
      pointInRingLoop qx qy edges inside = true := by
  intro edges
  induction edges with
  | nil =>
    rintro inside ⟨e, he, -⟩
    cases he
  | cons e rest ih =>
    rintro inside ⟨f, hf, hseg⟩
    obtain ⟨⟨xj, yj⟩, xi, yi⟩ := e
    simp only [pointInRingLoop]
    by_cases hs : point_on_segment qx qy xj yj xi yi = true
    · rw [if_pos hs]
    · rw [if_neg hs]
      rcases hf with _ | hf
      · exact absurd hseg hs
      · exact ih _ ⟨f, by assumption, hseg⟩

theorem point_in_ring_on_edge (qx qy : Int) (ring : List (Int × Int))
    (h3 : 3 ≤ ring.length)
    (h : ∃ e ∈ ringEdges ring, point_on_segment qx qy e.1.1 e.1.2 e.2.1 e.2.2 = true) :
    point_in_ring qx qy ring = true := by
  unfold point_in_ring
  rw [if_neg (by omega)]
  exact pointInRingLoop_on_edge qx qy _ false h

theorem part_contains_point_eval (part : Part) (ptx pty : ℚ) (qx qy : Int)
    (hbox : (decide (part.minx ≤ ptx) && decide (ptx ≤ part.maxx)
        && decide (part.miny ≤ pty) && decide (pty ≤ part.maxy)) = true)
    (hqx : quantize ptx part.minx (part.maxx - part.minx) = qx)
    (hqy : quantize pty part.miny (part.maxy - part.miny) = qy) :
    part_contains_point part ptx pty
      = (match part.rings with
         | [] => false
         | outer :: holes =>
           if outer.isEmpty then false
           else if ! point_in_ring qx qy outer then false
           else if holes.any (fun h => !h.isEmpty && point_in_ring qx qy h) then false
           else true) := by
  unfold part_contains_point
  rw [if_neg (by simp [hbox])]
  simp only [hqx, hqy]

theorem part_contains_on_outer_edge (part : Part) (ptx pty : ℚ)
    (outer : List (Int × Int)) (holes : List (List (Int × Int)))
    (hrings : part.rings = outer :: holes)
    (hbox : (decide (part.minx ≤ ptx) && decide (ptx ≤ part.maxx)
        && decide (part.miny ≤ pty) && decide (pty ≤ part.maxy)) = true)
    (h3 : 3 ≤ outer.length)
    (hedge : ∃ e ∈ ringEdges outer,
      point_on_segment (quantize ptx part.minx (part.maxx - part.minx))
        (quantize pty part.miny (part.maxy - part.miny)) e.1.1 e.1.2 e.2.1 e.2.2 = true)
    (hholes : ∀ hole ∈ holes,
      point_in_ring (quantize ptx part.minx (part.maxx - part.minx))
        (quantize pty part.miny (part.maxy - part.miny)) hole = false) :
    part_contains_point part ptx pty = true := by
  rw [part_contains_point_eval part ptx pty _ _ hbox rfl rfl, hrings]
  dsimp only
  have houter : point_in_ring (quantize ptx part.minx (part.maxx - part.minx))
      (quantize pty part.miny (part.maxy - part.miny)) outer = true :=
    point_in_ring_on_edge _ _ outer h3 hedge
  have hne : outer.isEmpty = false := by
    cases outer
    · simp at h3
    · rfl
  have hany : (holes.any fun h =>
      !h.isEmpty && point_in_ring (quantize ptx part.minx (part.maxx - part.minx))
        (quantize pty part.miny (part.maxy - part.miny)) h) = false := by
    rw [List.any_eq_false]
    intro x hx
    simp [hholes x hx]
  rw [hne, houter, hany]
  simp

theorem lookupZ_append_some {β : Type} :
    ∀ (m rest : List (Int × β)) (k : Int), (lookupZ m k).isSome = true →
      lookupZ (m ++ rest) k = lookupZ m k := by
  intro m
  induction m with
  | nil =>
    intro rest k h
    simp [lookupZ] at h
  | cons p t ih =>
    intro rest k h
    by_cases hk : p.1 = k
    · obtain ⟨k0, v⟩ := p
      simp only [lookupZ, List.cons_append] at h ⊢
      rw [if_pos hk, if_pos hk]
    · obtain ⟨k0, v⟩ := p
      simp only [lookupZ, List.cons_append] at h ⊢
      rw [if_neg hk] at h ⊢
      rw [if_neg hk]
      exact ih rest k h

theorem lookupZ_append_none {β : Type} :
    ∀ (m rest : List (Int × β)) (k : Int), lookupZ m k = none →
      lookupZ (m ++ rest) k = lookupZ rest k := by
  intro m
  induction m with
  | nil => intro rest k _; rfl
  | cons p t ih =>
    intro rest k h
    obtain ⟨k0, v⟩ := p
    simp only [lookupZ, List.cons_append] at h ⊢
    by_cases hk : k0 = k
    · rw [if_pos hk] at h
      cases h
    · rw [if_neg hk] at h
      rw [if_neg hk]
      exact ih rest k h

theorem query_point_go_preserves (ptx pty : ℚ) (levels : List Int) :
    ∀ (fs : List Feature) (hits : List (Int × Hit)) (L : Int),
      (lookupZ hits L).isSome = true →
      lookupZ (query_point_go ptx pty levels hits fs) L = lookupZ hits L := by
  intro fs
  induction fs with
  | nil => intro hits L _; rfl
  | cons f rest ih =>
    intro hits L h
    simp only [query_point_go]
    by_cases h1 : (!(decide (f.level ∈ levels))) = true
    · rw [if_pos h1]
      exact ih hits L h
    · rw [if_neg h1]
      by_cases h2 : (lookupZ hits f.level).isSome = true
      · rw [if_pos h2]
        exact ih hits L h
      · rw [if_neg h2]
        by_cases h3 : feature_contains_point f ptx pty = true
        · rw [if_pos h3]
          have hne : f.level ≠ L := by
            intro he
            rw [he] at h2
            exact h2 h
          have hsome := lookupZ_append_some hits [(f.level, hitOf f)] L h
          rw [ih _ L (by rw [hsome]; exact h), hsome]
        · rw [if_neg h3]
          exact ih hits L h

theorem query_point_go_first_hit (ptx pty : ℚ) (levels : List Int) (f : Feature)
    (post : List Feature) (hlv : f.level ∈ levels)
    (hcont : feature_contains_point f ptx pty = true) :
    ∀ (pre : List Feature) (hits : List (Int × Hit)),
      (∀ g ∈ pre, g.level = f.level → feature_contains_point g ptx pty = false) →
      lookupZ hits f.level = none →
      lookupZ (query_point_go ptx pty levels hits (pre ++ f :: post)) f.level
        = some (hitOf f) := by
  intro pre
  induction pre with
  | nil =>
    intro hits hpre hnone
    simp only [List.nil_append, query_point_go]
    rw [if_neg (by simpa using hlv), if_neg (by simp [hnone]), if_pos hcont]
    have hbase : lookupZ (hits ++ [(f.level, hitOf f)]) f.level = some (hitOf f) := by
      rw [lookupZ_append_none hits _ _ hnone]
      simp [lookupZ]
    rw [query_point_go_preserves ptx pty levels post _ f.level (by rw [hbase]; rfl)]
    exact hbase
  | cons g pre' ih =>
    intro hits hpre hnone
    simp only [List.cons_append, query_point_go]
    by_cases h1 : (!(decide (g.level ∈ levels))) = true
    · rw [if_pos h1]
      exact ih hits (fun x hx => hpre x (List.mem_cons_of_mem _ hx)) hnone
    · rw [if_neg h1]
      by_cases h2 : (lookupZ hits g.level).isSome = true
      · rw [if_pos h2]
        exact ih hits (fun x hx => hpre x (List.mem_cons_of_mem _ hx)) hnone
      · rw [if_neg h2]
        by_cases hgf : g.level = f.level
        · have : feature_contains_point g ptx pty = false :=
            hpre g (List.mem_cons_self _ _) hgf
          rw [if_neg (by simp [this])]
          exact ih hits (fun x hx => hpre x (List.mem_cons_of_mem _ hx)) hnone
        · by_cases h3 : feature_contains_point g ptx pty = true
          · rw [if_pos h3]
            apply ih _ (fun x hx => hpre x (List.mem_cons_of_mem _ hx))
            rw [lookupZ_append_none hits _ _ hnone]
            simp only [lookupZ]
            rw [if_neg hgf]
          · rw [if_neg h3]
            exact ih hits (fun x hx => hpre x (List.mem_cons_of_mem _ hx)) hnone

/-- C7 counterexample: the claim quantifies over every ring of the part,
but for a point whose quantized coordinates lie exactly on an edge of a
hole ring (collinearity predicate satisfied within the edge bbox) the
contains test reports the point as outside, and query_point returns no
feature at its level. -/
theorem query_point_hole_edge_counterexample :
    point_on_segment (quantize 40 holePart.minx (holePart.maxx - holePart.minx))
        (quantize 20 holePart.miny (holePart.maxy - holePart.miny)) 20 20 60 20 = true
    ∧ ((20, 20), ((60 : Int), (20 : Int)))
        ∈ ringEdges [(20, 20), (60, 20), (60, 60), (20, 60)]
    ∧ [((20 : Int), (20 : Int)), (60, 20), (60, 60), (20, 60)] ∈ holePart.rings
    ∧ part_contains_point holePart 40 20 = false
    ∧ query_point [holeFeature] 40 20 [4] = [] := by
  have hspan : (65535 : ℚ) - 0 = 65535 := by norm_num
  have hq40 : quantize 40 holePart.minx (holePart.maxx - holePart.minx) = 40 := by
    show quantize 40 0 (65535 - 0) = 40
    rw [hspan]
    exact quantize_unit_box 40 40 (by norm_num) (by omega) (by omega)
  have hq20 : quantize 20 holePart.miny (holePart.maxy - holePart.miny) = 20 := by
    show quantize 20 0 (65535 - 0) = 20
    rw [hspan]
    exact quantize_unit_box 20 20 (by norm_num) (by omega) (by omega)
  have hcontains : part_contains_point holePart 40 20 = false := by
    rw [part_contains_point_eval holePart 40 20 40 20 (by decide) hq40 hq20]
    decide
  refine ⟨?_, by decide, by decide, hcontains, ?_⟩
  · rw [hq40, hq20]
    decide
  · have hfc : feature_contains_point holeFeature 40 20 = false := by
      unfold feature_contains_point holeFeature
      simp [hcontains]
    show query_point_go 40 20 [4] [] [holeFeature] = []
    simp only [query_point_go]
    rw [if_neg (by decide), if_neg (by decide), if_neg (by simp [hfc])]

/-- C7 as amended: if the quantized query point lies exactly on an edge
of the OUTER ring of a part (at least 3 vertices) and in no hole of that
part, the contains test reports the point as inside; and if additionally
the part's feature is the first feature at its level, in file order, that
contains the point, query_point returns that feature for its level. -/
theorem query_point_outer_edge_inside (features pre post : List Feature) (f : Feature)
    (part : Part) (outer : List (Int × Int)) (holes : List (List (Int × Int)))
    (ptx pty : ℚ) (levels : List Int)
    (hsplit : features = pre ++ f :: post)
    (hpart : part ∈ f.parts)
    (hrings : part.rings = outer :: holes)
    (hbox : (decide (part.minx ≤ ptx) && decide (ptx ≤ part.maxx)
        && decide (part.miny ≤ pty) && decide (pty ≤ part.maxy)) = true)
    (h3 : 3 ≤ outer.length)
    (hedge : ∃ e ∈ ringEdges outer,
      point_on_segment (quantize ptx part.minx (part.maxx - part.minx))
        (quantize pty part.miny (part.maxy - part.miny)) e.1.1 e.1.2 e.2.1 e.2.2 = true)
    (hholes : ∀ hole ∈ holes,
      point_in_ring (quantize ptx part.minx (part.maxx - part.minx))
        (quantize pty part.miny (part.maxy - part.miny)) hole = false)
    (hlv : f.level ∈ levels)
    (hpre : ∀ g ∈ pre, g.level = f.level → feature_contains_point g ptx pty = false) :
    part_contains_point part ptx pty = true
    ∧ lookupZ (query_point features ptx pty levels) f.level = some (hitOf f) := by
  have hcont : part_contains_point part ptx pty = true :=
    part_contains_on_outer_edge part ptx pty outer holes hrings hbox h3 hedge hholes
  refine ⟨hcont, ?_⟩
  have hfc : feature_contains_point f ptx pty = true := by
    unfold feature_contains_point
    exact List.any_eq_true.mpr ⟨part, hpart, hcont⟩
  rw [hsplit]
  exact query_point_go_first_hit ptx pty levels f post hlv hfc pre [] hpre rfl

/-- Witness for the amended C7: a point on the bottom edge of a plain
square is reported inside and returned by query_point. -/
theorem query_point_outer_edge_inside_witness :
    part_contains_point squarePart 50 0 = true
    ∧ lookupZ (query_point [squareFeature] 50 0 [4]) 4 = some (hitOf squareFeature) := by
  have hspan : (65535 : ℚ) - 0 = 65535 := by norm_num
  have hq50 : quantize 50 squarePart.minx (squarePart.maxx - squarePart.minx) = 50 := by
    show quantize 50 0 (65535 - 0) = 50
    rw [hspan]
    exact quantize_unit_box 50 50 (by norm_num) (by omega) (by omega)
  have hq0 : quantize 0 squarePart.miny (squarePart.maxy - squarePart.miny) = 0 := by
    show quantize 0 0 (65535 - 0) = 0
    rw [hspan]
    exact quantize_unit_box 0 0 (by norm_num) (by omega) (by omega)
  have h := query_point_outer_edge_inside [squareFeature] [] [] squareFeature squarePart
    [(0, 0), (100, 0), (100, 100), (0, 100)] [] 50 0 [4]
    rfl (List.mem_cons_self _ _) rfl (by decide) (by decide)
    (by
      rw [hq50, hq0]
      exact ⟨((0, 0), (100, 0)), by decide, by decide⟩)
    (by
      intro hole hmem
      cases hmem)
    (by decide)
    (by
      intro g hg
      cases hg)
  have hlevel : squareFeature.level = 4 := rfl
  rw [← hlevel]
  exact h

/-! ## C8: bootstrap cache selection -/

theorem natListLt_ne (a b : List Nat) (h : natListLt a b = true) : a ≠ b := by
  intro he
  rw [he, natListLt_irrefl] at h
  exact Bool.false_ne_true h

theorem string_data_inj (s t : String) (h : s.data = t.data) : s = t := by
  cases s
  cases t
  exact congrArg String.mk h

theorem candLt_asymm (a b : List Nat × String) :
    candLt a b = true → candLt b a = false := by
  intro h
  unfold candLt at h ⊢
  rcases Bool.or_eq_true_iff.mp h with h1 | h2
  · have hba := natListLt_asymm _ _ h1
    have hne : (b.1 == a.1) = false := by
      apply beq_eq_false_iff_ne.mpr
      intro he
      rw [he, natListLt_irrefl] at h1
      exact Bool.false_ne_true h1
    simp [hba, hne]
  · rcases Bool.and_eq_true_iff.mp h2 with ⟨hbeq, hlt⟩
    have heq : a.1 = b.1 := by simpa using hbeq
    have h1 : natListLt b.1 a.1 = false := by
      rw [heq, natListLt_irrefl]
    have h2b : charListLt b.2.data a.2.data = false := charListLt_asymm _ _ hlt
    simp [h1, h2b]

theorem candLt_trans (a b c : List Nat × String) :
    candLt a b = true → candLt b c = true → candLt a c = true := by
  intro hab hbc
  unfold candLt at hab hbc ⊢
  rcases Bool.or_eq_true_iff.mp hab with h1 | h1 <;> rcases Bool.or_eq_true_iff.mp hbc with h2 | h2
  · exact Bool.or_eq_true_iff.mpr (Or.inl (natListLt_trans _ _ _ h1 h2))
  · rcases Bool.and_eq_true_iff.mp h2 with ⟨hbeq, -⟩
    have heq : b.1 = c.1 := by simpa using hbeq
    rw [heq] at h1
    exact Bool.or_eq_true_iff.mpr (Or.inl h1)
  · rcases Bool.and_eq_true_iff.mp h1 with ⟨hbeq, -⟩
    have heq : a.1 = b.1 := by simpa using hbeq
    rw [← heq] at h2
    exact Bool.or_eq_true_iff.mpr (Or.inl h2)
  · rcases Bool.and_eq_true_iff.mp h1 with ⟨hbeq1, hlt1⟩
    rcases Bool.and_eq_true_iff.mp h2 with ⟨hbeq2, hlt2⟩
    have heq1 : a.1 = b.1 := by simpa using hbeq1
    have heq2 : b.1 = c.1 := by simpa using hbeq2
    apply Bool.or_eq_true_iff.mpr
    right
    apply Bool.and_eq_true_iff.mpr
    constructor
    · simp [heq1.trans heq2]
    · exact charListLt_trans _ _ _ hlt1 hlt2

theorem candLt_connex (a b : List Nat × String) :
    candLt a b = false → candLt b a = false → a = b := by
  intro hab hba
  unfold candLt at hab hba
  rcases Bool.or_eq_false_iff.mp hab with ⟨h1, h2⟩
  rcases Bool.or_eq_false_iff.mp hba with ⟨h3, h4⟩
  have heq1 : a.1 = b.1 := natListLt_connex _ _ h1 h3
  have hd1 : charListLt a.2.data b.2.data = false := by
    rcases Bool.and_eq_false_iff.mp h2 with h | h
    · rw [beq_eq_false_iff_ne] at h
      exact absurd heq1 h
    · exact h
  have hd2 : charListLt b.2.data a.2.data = false := by
    rcases Bool.and_eq_false_iff.mp h4 with h | h
    · rw [beq_eq_false_iff_ne] at h
      exact absurd heq1.symm h
    · exact h
  have heq2 : a.2 = b.2 := string_data_inj _ _ (charListLt_connex _ _ hd1 hd2)
  exact Prod.ext heq1 heq2

theorem candGe_total : IsTotalB candGe := by
  intro a b
  unfold candGe
  by_cases h : candLt a b = true
  · right
    simp [candLt_asymm _ _ h]
  · left
    simp [Bool.eq_false_iff.mpr h]

theorem candGe_trans : IsTransB candGe := by
  intro a b c hab hbc
  unfold candGe at hab hbc ⊢
  simp only [Bool.not_eq_true'] at hab hbc ⊢
  by_cases h : candLt a c = true
  · exfalso
    by_cases hcb : candLt c b = true
    · have := candLt_trans _ _ _ h hcb
      rw [hab] at this
      exact Bool.false_ne_true this
    · have heq : b = c := candLt_connex _ _ hbc (Bool.eq_false_iff.mpr hcb)
      rw [← heq, hab] at h
      exact Bool.false_ne_true h
  · exact Bool.eq_false_iff.mpr h

theorem candLt_irrefl (a : List Nat × String) : candLt a a = false := by
  simp [candLt, natListLt_irrefl, charListLt_irrefl]

theorem candGe_refl (a : List Nat × String) : candGe a a = true := by
  simp [candGe, candLt_irrefl]

theorem findLocalGo_top_valid (iso2 dataset_id : String)
    (rm : String → Bool) (vd : String → Except String Unit)
    (ce : List Nat × String) (hfiles : rm ce.2 = false) (hok : vd ce.2 = .ok ())
    (S : List (List Nat × String)) (hmem : ce ∈ S)
    (habove : ∀ s ∈ S, candLt ce s = true → rm s.2 = true)
    (hpw : S.Pairwise (fun a b => candGe a b = true)) :
    findLocalGo iso2 dataset_id rm vd S
      = .ok (some { country_iso2 := iso2, dataset_id := dataset_id,
                    dataset_version := ce.2, used_cached_dataset := true }) := by
  induction S with
  | nil => cases hmem
  | cons s rest ih =>
    by_cases hcls : candLt ce s = true
    · have hrm : rm s.2 = true := habove s (List.mem_cons_self s rest) hcls
      have hmem2 : ce ∈ rest := by
        rcases List.mem_cons.mp hmem with heq | h
        · rw [heq, candLt_irrefl] at hcls
          exact absurd hcls Bool.false_ne_true
        · exact h
      have hrest := ih hmem2 (fun x hx hlt => habove x (List.mem_cons_of_mem s hx) hlt)
        (List.pairwise_cons.mp hpw).2
      simpa [findLocalGo, validate_cached_dataset_dir, hrm] using hrest
    · have hge : candGe s ce = true := by
        rcases List.mem_cons.mp hmem with heq | h
        · rw [heq]
          exact candGe_refl s
        · exact (List.pairwise_cons.mp hpw).1 ce h
      have hge2 : (! candLt s ce) = true := hge
      have hlt_sce : candLt s ce = false := by simpa using hge2
      have hseq : s = ce := candLt_connex s ce hlt_sce (Bool.eq_false_iff.mpr hcls)
      rw [hseq]
      simp [findLocalGo, validate_cached_dataset_dir, hfiles, hok]

/-- C8 counterexample: a cached version directory whose name is not
semver-like — files present, validation passing, so the claim's
antecedent holds — is excluded from the candidate list, and bootstrap
proceeds to the network instead of reusing it. -/
theorem bootstrap_nonsemver_cached_counterexample :
    ((⟨"weird", true⟩ : DirEntry) ∈ [(⟨"weird", true⟩ : DirEntry)]
      ∧ (⟨"weird", true⟩ : DirEntry).isDirectory = true
      ∧ (fun _ : String => false) "weird" = false
      ∧ (fun _ : String => (Except.ok () : Except String Unit)) "weird" = .ok ())
    ∧ bootstrap_country_dataset "JP" "jp.admin" [⟨"weird", true⟩]
        (fun _ => false) (fun _ => .ok ()) false none = .ok .network := by
  exact ⟨⟨by decide, rfl, rfl, rfl⟩, rfl⟩

/-- C8 as amended: with no pin and update_to_latest = false, if some
cached directory entry has a semver-like name, all required files
present, and passing dataset validation, and every entry strictly above
it in the descending candidate order (parsed tuple first, name as
tie-break) is missing required files, then bootstrap returns that entry
from the cache with used_cached_dataset = true and no network call; and
that entry is maximal in the candidate order among semver-named entries
with files present. -/
theorem bootstrap_cached_highest (iso2 dataset_id : String) (entries : List DirEntry)
    (requiredMissing : String → Bool)
    (validate_dataset_dir : String → Except String Unit)
    (e : DirEntry) (he : e ∈ entries)
    (hdir : e.isDirectory = true)
    (hparse : parse_version_for_sort e.name ≠ [])
    (hfiles : requiredMissing e.name = false)
    (hok : validate_dataset_dir e.name = .ok ())
    (habove : ∀ d ∈ entries, d.isDirectory = true → parse_version_for_sort d.name ≠ [] →
        candLt (parse_version_for_sort e.name, e.name)
          (parse_version_for_sort d.name, d.name) = true →
        requiredMissing d.name = true) :
    bootstrap_country_dataset iso2 dataset_id entries requiredMissing
        validate_dataset_dir false none
      = .ok (.cached { country_iso2 := iso2, dataset_id := dataset_id,
                       dataset_version := e.name, used_cached_dataset := true } false)
    ∧ ∀ d ∈ entries, d.isDirectory = true → parse_version_for_sort d.name ≠ [] →
        requiredMissing d.name = false →
        candLt (parse_version_for_sort e.name, e.name)
          (parse_version_for_sort d.name, d.name) = false := by
  have hcmem : (parse_version_for_sort e.name, e.name) ∈ entries.filterMap (fun d =>
      if d.isDirectory && !(parse_version_for_sort d.name).isEmpty
      then some (parse_version_for_sort d.name, d.name) else none) := by
    apply List.mem_filterMap.mpr
    refine ⟨e, he, ?_⟩
    rw [if_pos ?_]
    rw [hdir]
    cases hp : parse_version_for_sort e.name
    · exact absurd hp hparse
    · simp
  have hmem_sorted : (parse_version_for_sort e.name, e.name)
      ∈ sortLe candGe (entries.filterMap (fun d =>
        if d.isDirectory && !(parse_version_for_sort d.name).isEmpty
        then some (parse_version_for_sort d.name, d.name) else none)) :=
    (sortLe_perm candGe _).mem_iff.mpr hcmem
  have hab : ∀ s ∈ sortLe candGe (entries.filterMap (fun d =>
      if d.isDirectory && !(parse_version_for_sort d.name).isEmpty
      then some (parse_version_for_sort d.name, d.name) else none)),
      candLt (parse_version_for_sort e.name, e.name) s = true →
      requiredMissing s.2 = true := by
    intro s hs hlt
    have hs2 : s ∈ entries.filterMap (fun d =>
        if d.isDirectory && !(parse_version_for_sort d.name).isEmpty
        then some (parse_version_for_sort d.name, d.name) else none) :=
      (sortLe_perm candGe _).mem_iff.mp hs
    obtain ⟨d, hd, hdsome⟩ := List.mem_filterMap.mp hs2
    have hdcond : (d.isDirectory && !(parse_version_for_sort d.name).isEmpty) = true := by
      by_contra hcond
      rw [if_neg (by simpa using hcond)] at hdsome
      cases hdsome
    rw [if_pos hdcond] at hdsome
    have hseq : s = (parse_version_for_sort d.name, d.name) :=
      (Option.some_inj.mp hdsome).symm
    have hdird := (Bool.and_eq_true_iff.mp hdcond).1
    have hparsed : parse_version_for_sort d.name ≠ [] := by
      intro hnil
      have := (Bool.and_eq_true_iff.mp hdcond).2
      rw [hnil] at this
      simp at this
    rw [hseq] at hlt ⊢
    exact habove d hd hdird hparsed hlt
  have hpw := sortLe_pairwise candGe candGe_total candGe_trans
    (entries.filterMap (fun d =>
      if d.isDirectory && !(parse_version_for_sort d.name).isEmpty
      then some (parse_version_for_sort d.name, d.name) else none))
  have hgo := findLocalGo_top_valid iso2 dataset_id requiredMissing validate_dataset_dir
    (parse_version_for_sort e.name, e.name) hfiles hok
    (sortLe candGe (entries.filterMap (fun d =>
      if d.isDirectory && !(parse_version_for_sort d.name).isEmpty
      then some (parse_version_for_sort d.name, d.name) else none)))
    hmem_sorted hab hpw
  have hfl : find_local_cached_dataset iso2 dataset_id entries requiredMissing
      validate_dataset_dir
      = .ok (some { country_iso2 := iso2, dataset_id := dataset_id,
                    dataset_version := e.name, used_cached_dataset := true }) := by
    unfold find_local_cached_dataset
    exact hgo
  constructor
  · simp [bootstrap_country_dataset, hfl]
  · intro d hd hdird hparsed hrmfalse
    cases hX : candLt (parse_version_for_sort e.name, e.name)
        (parse_version_for_sort d.name, d.name) with
    | false => rfl
    | true =>
      have htrue := habove d hd hdird hparsed hX
      rw [hrmfalse] at htrue
      exact absurd htrue Bool.false_ne_true

/-- Witness for the amended C8: two cached versions 1.0.0 and 1.1.0 with
files present and passing validation, update_to_latest = false; selection
returns 1.1.0 from the cache with no network call, and 1.1.0 is maximal
among the candidates. -/
theorem bootstrap_cached_highest_witness :
    bootstrap_country_dataset "JP" "jp.admin" [⟨"1.0.0", true⟩, ⟨"1.1.0", true⟩]
        (fun _ => false) (fun _ => .ok ()) false none
      = .ok (.cached { country_iso2 := "JP", dataset_id := "jp.admin",
                       dataset_version := "1.1.0", used_cached_dataset := true } false)
    ∧ ∀ d ∈ [(⟨"1.0.0", true⟩ : DirEntry), ⟨"1.1.0", true⟩], d.isDirectory = true →
        parse_version_for_sort d.name ≠ [] →
        (fun _ : String => false) d.name = false →
        candLt (parse_version_for_sort "1.1.0", "1.1.0")
          (parse_version_for_sort d.name, d.name) = false :=
  bootstrap_cached_highest "JP" "jp.admin" [⟨"1.0.0", true⟩, ⟨"1.1.0", true⟩]
    (fun _ => false) (fun _ => .ok ()) ⟨"1.1.0", true⟩ (by decide) rfl (by decide)
    rfl rfl (by decide)

/-! ## C10: overlay application never mutates the input bundle -/

theorem overlayApplyHeap_extends (ov : SemanticOverlay) (h : Heap) (r : Nat) :
    ∃ t, (overlayApplyHeap ov h r).1 = h ++ t := by
  unfold overlayApplyHeap
  cases hg : h.get? r with
  | none => exact ⟨[], by simp⟩
  | some b => exact ⟨[overlayApplyValue ov b], rfl⟩

theorem foldl_overlayApplyHeap_extends (ovs : List SemanticOverlay) :
    ∀ st : Heap × Nat,
      ∃ t, (ovs.foldl (fun st ov => overlayApplyHeap ov st.1 st.2) st).1 = st.1 ++ t := by
  induction ovs with
  | nil => intro st; exact ⟨[], by simp⟩
  | cons ov rest ih =>
    intro st
    obtain ⟨t1, h1⟩ := overlayApplyHeap_extends ov st.1 st.2
    obtain ⟨t2, h2⟩ := ih (overlayApplyHeap ov st.1 st.2)
    refine ⟨t1 ++ t2, ?_⟩
    rw [List.foldl_cons, h2, h1, List.append_assoc]

/-- C10: `apply_semantic_overlays` never mutates the caller's bundle
object: the heap cell passed in holds exactly the same bundle value
(status, node count, names, osm_ids, levels, ranks) after the call as
before, because every write of the source targets a fresh deep copy; and
with an empty overlay list the very same object is returned with the heap
untouched. -/
theorem apply_semantic_overlays_frame (h : Heap) (r : Nat) (overlays : List SemanticOverlay)
    (hr : r < h.length) :
    (apply_semantic_overlays h r overlays).1.get? r = h.get? r
    ∧ (overlays = [] → apply_semantic_overlays h r overlays = (h, .ok r)) := by
  constructor
  · unfold apply_semantic_overlays
    by_cases hov : overlays.isEmpty = true
    · rw [if_pos hov]
    · rw [if_neg hov]
      cases hg : h.get? r with
      | none => exact hg
      | some b0 =>
        dsimp only
        have hfold : (overlays.foldl (fun st ov => overlayApplyHeap ov st.1 st.2)
            (heapAlloc h b0)).1.get? r = some b0 := by
          obtain ⟨t, ht⟩ := foldl_overlayApplyHeap_extends overlays (heapAlloc h b0)
          rw [ht]
          show ((h ++ [b0]) ++ t).get? r = some b0
          rw [List.get?_append (by simpa using Nat.lt_succ_of_lt hr),
            List.get?_append hr]
          exact hg
        cases hnext : (overlays.foldl (fun st ov => overlayApplyHeap ov st.1 st.2)
            (heapAlloc h b0)).1.get? (overlays.foldl
              (fun st ov => overlayApplyHeap ov st.1 st.2) (heapAlloc h b0)).2 with
        | none => exact hfold
        | some bOut =>
          dsimp only
          split_ifs <;> exact hfold
  · intro he
    subst he
    rfl

/-- Witness for C10: a one-overlay application (with a name override that
does rewrite the output's name) leaves the caller's cell untouched, and
the empty overlay list returns the same reference over the same heap. -/
theorem apply_semantic_overlays_frame_witness :
    (apply_semantic_overlays
        [{ lookup_status := "ok", engine := "cadis", version := "1",
           country_name := "Japan",
           admin_hierarchy := [{ rank := 0, osm_id := some "R123", level := 4,
                                 name := "Old", source := "polygon" }],
           result_source := none, context_anchor := none, semantic_overlays := [] }]
        0
        [{ name := "ov", file := "ov.json", result_metadata := [("k", "v")],
           name_overrides_by_osm_id := [("R123", "Renamed")] }]).1.get? 0
      = (some { lookup_status := "ok", engine := "cadis", version := "1",
                country_name := "Japan",
                admin_hierarchy := [{ rank := 0, osm_id := some "R123", level := 4,
                                      name := "Old", source := "polygon" }],
                result_source := none, context_anchor := none,
                semantic_overlays := [] })
    ∧ apply_semantic_overlays
        [{ lookup_status := "ok", engine := "cadis", version := "1",
           country_name := "Japan",
           admin_hierarchy := [{ rank := 0, osm_id := some "R123", level := 4,
                                 name := "Old", source := "polygon" }]
           , result_source := none, context_anchor := none, semantic_overlays := [] }]
        0 []
      = ([{ lookup_status := "ok", engine := "cadis", version := "1",
            country_name := "Japan",
            admin_hierarchy := [{ rank := 0, osm_id := some "R123", level := 4,
                                  name := "Old", source := "polygon" }],
            result_source := none, context_anchor := none,
            semantic_overlays := [] }], .ok 0) := by
  constructor
  · exact (apply_semantic_overlays_frame _ 0 _ (by decide)).1
  · exact (apply_semantic_overlays_frame _ 0 [] (by decide)).2 rfl

end Cadis
